import Mathlib

/-! Bank keeper (x/bank/keeper.go): coin ledger and asset issuance.

A shallow embedding of `x/bank/keeper.go`.  The keeper functions are translated
one by one; Go's mutable execution context is passed explicitly as a `Context`
value that every function returns again.  The types of the `sdk` and `auth`
packages the keeper uses (`Coins`, `Tags`, `Error`, `AccountMapper`, the gas
meter) are not part of `x/bank`; they are modelled here and marked as such.
-/

namespace Bank

/-! ## Types of the `sdk` package -/

/-- Modelled from the spec: `sdk.Address` (not in `x/bank`), the opaque account
identifier that keys the account store.  An address is identified with its
`String()` rendering, which is what the keeper puts into tags. -/
abbrev Address := String

/-- Modelled from the spec: `Address.String()`, the rendering used as a tag value. -/
def Address.String (addr : Address) : String := addr

/-- Modelled from the spec: `sdk.Gas`, abstract cost units. -/
abbrev Gas := Nat

def costGetCoins : Gas := 10
def costHasCoins : Gas := 10
def costSetCoins : Gas := 100
def costSubtractCoins : Gas := 10
def costAddCoins : Gas := 10

/-- Modelled from the spec: `sdk.Coin` (not in `x/bank`), one denomination with an
integer amount.  Amounts are unbounded integers; negative amounts are
representable because the keeper tests for them. -/
structure Coin where
  Denom : String
  Amount : Int
deriving DecidableEq, Repr

/-- Modelled from the spec: `sdk.Coins` (not in `x/bank`), a sequence of coins whose
canonical form is sorted by denomination with no zero-amount entry. -/
abbrev Coins := List Coin

/-- Inner loop of `Coins.Plus` for a fixed head `a :: as` of the left operand;
`plusAs` is `Coins.Plus as`. -/
def Coins.plusStep (a : Coin) (as : Coins) (plusAs : Coins → Coins) : Coins → Coins
  | [] => a :: as
  | b :: bs =>
    if a.Denom < b.Denom then a :: plusAs (b :: bs)
    else if a.Denom = b.Denom then
      if a.Amount + b.Amount = 0 then plusAs bs
      else ⟨a.Denom, a.Amount + b.Amount⟩ :: plusAs bs
    else b :: Coins.plusStep a as plusAs bs

/-- Modelled from the spec: `Coins.Plus` (not in `x/bank`), per-denomination addition
of two denomination-sorted sequences: a merge in which a denomination absent
from one side counts as zero and a denomination whose sum is zero is left out,
so that canonical operands give a canonical result. -/
def Coins.Plus : Coins → Coins → Coins
  | [], coinsB => coinsB
  | a :: as, coinsB => Coins.plusStep a as (Coins.Plus as) coinsB

/-- Modelled from the spec: `Coins.Negative` (not in `x/bank`), every amount negated. -/
def Coins.Negative (coins : Coins) : Coins :=
  coins.map fun coin => ⟨coin.Denom, -coin.Amount⟩

/-- Modelled from the spec: `Coins.Minus` (not in `x/bank`), per-denomination
subtraction, the sum with the negated right operand. -/
def Coins.Minus (coins coinsB : Coins) : Coins :=
  Coins.Plus coins (Coins.Negative coinsB)

/-- Modelled from the spec: `Coins.IsNotNegative` (not in `x/bank`), true when no
entry has a negative amount (the empty value included). -/
def Coins.IsNotNegative (coins : Coins) : Bool :=
  coins.all fun coin => decide (0 ≤ coin.Amount)

/-- Modelled from the spec: `Coins.IsGTE` (not in `x/bank`), true when the
difference `coins - coinsB` has no negative denomination. -/
def Coins.IsGTE (coins coinsB : Coins) : Bool :=
  Coins.IsNotNegative (Coins.Minus coins coinsB)

/-- Amount held in one denomination: the sum of the entries of that
denomination, zero when there is none. -/
def Coins.AmountOf (coins : Coins) (denom : String) : Int :=
  (coins.map fun coin => if coin.Denom = denom then coin.Amount else 0).sum

/-- Sorted by denomination, no denomination twice. -/
def Coins.IsSorted (coins : Coins) : Prop :=
  List.Pairwise (fun a b : Coin => a.Denom < b.Denom) coins

/-- Canonical form: strictly increasing denominations and no zero amount. -/
def Coins.IsCanonical (coins : Coins) : Prop :=
  Coins.IsSorted coins ∧ ∀ c ∈ coins, c.Amount ≠ 0

/-- Valid value: canonical and no negative amount. -/
def Coins.IsValid (coins : Coins) : Prop :=
  Coins.IsCanonical coins ∧ Coins.IsNotNegative coins = true

/-- Modelled from the spec: `sdk.Tag` (not in `x/bank`), a key/value annotation. -/
structure Tag where
  Key : String
  Value : String
deriving DecidableEq, Repr

/-- Modelled from the spec: `sdk.Tags` (not in `x/bank`), an ordered sequence of tags.
Go's `nil` tag set is the empty sequence. -/
abbrev Tags := List Tag

/-- Modelled from the spec: `sdk.EmptyTags()`. -/
def EmptyTags : Tags := []

/-- Modelled from the spec: `sdk.NewTags(key, value)` with one key/value pair. -/
def NewTags (key : String) (value : String) : Tags := [⟨key, value⟩]

/-- Modelled from the spec: `Tags.AppendTag`, which returns the tag set extended by
one tag and leaves its receiver as it was. -/
def Tags.AppendTag (t : Tags) (k : String) (v : String) : Tags := t ++ [⟨k, v⟩]

/-- Modelled from the spec: `Tags.AppendTags`, which returns the concatenation. -/
def Tags.AppendTags (t a : Tags) : Tags := t ++ a

/-- Message carried by an error. -/
inductive ErrMsg where
  /-- The text `fmt.Sprintf("%s < %s", oldCoins, amt)`. -/
  | lessThan (oldCoins amt : Coins)
  /-- The text `"no assets left"`. -/
  | noAssetsLeft
deriving DecidableEq, Repr

/-- Modelled from the spec: `sdk.Error` (not in `x/bank`); the keeper only builds
errors with `sdk.ErrInsufficientCoins`. -/
inductive Error where
  | ErrInsufficientCoins (msg : ErrMsg)
deriving DecidableEq, Repr

/-- Modelled from the spec: `sdk.AssetPeg` (not in `x/bank`), a token with an
identifier `PegHash`; `Body` stands for its remaining fields. -/
structure AssetPeg where
  PegHash : String
  Body : String
deriving DecidableEq, Repr

/-- Modelled from the spec: `sdk.AssetPegWallet`, an ordered sequence of asset pegs. -/
abbrev AssetPegWallet := List AssetPeg

/-! ## Account store and execution context -/

/-- Modelled from the spec: the record the account store keeps under an address:
a balance and an asset wallet. -/
structure AccountRecord where
  coins : Coins
  assetPegWallet : AssetPegWallet
deriving DecidableEq, Repr

/-- Modelled from the spec: `auth.Account` (not in `x/bank`) as handed out by the
account mapper: a record together with the address it is stored under. -/
structure Account where
  address : Address
  coins : Coins
  assetPegWallet : AssetPegWallet
deriving DecidableEq, Repr

def Account.GetCoins (acc : Account) : Coins := acc.coins
def Account.SetCoins (acc : Account) (amt : Coins) : Account := { acc with coins := amt }
def Account.GetAssetPegWallet (acc : Account) : AssetPegWallet := acc.assetPegWallet
def Account.SetAssetPegWallet (acc : Account) (asset : AssetPegWallet) : Account :=
  { acc with assetPegWallet := asset }

/-- The account store: at most one record per address. -/
abbrev AccountStore := Address → Option AccountRecord

/-- Modelled from the spec: `sdk.Context` (not in `x/bank`) reduced to what the keeper
touches: the gas consumed on its meter and the account store it gives access to.
The account mapper `am` of the Go code is a stateless handle on that store and
is not passed separately.  The meter only counts; running out of gas is the
meter's business and is outside this embedding. -/
structure Context where
  gasConsumed : Gas
  accounts : AccountStore

/-- Modelled from the spec: `ctx.GasMeter().ConsumeGas(amount, _)`. -/
def Context.ConsumeGas (ctx : Context) (amount : Gas) : Context :=
  { ctx with gasConsumed := ctx.gasConsumed + amount }

/-- Modelled from the spec: `am.GetAccount(ctx, addr)`, `none` for Go's `nil`. -/
def GetAccount (ctx : Context) (addr : Address) : Option Account :=
  (ctx.accounts addr).map fun r => ⟨addr, r.coins, r.assetPegWallet⟩

/-- Modelled from the spec: `am.NewAccountWithAddress(ctx, addr)`, a fresh record
with a zero balance and an empty wallet; nothing is stored yet. -/
def NewAccountWithAddress (_ctx : Context) (addr : Address) : Account :=
  ⟨addr, [], []⟩

/-- Modelled from the spec: `am.SetAccount(ctx, acc)`, which stores the record under
the account's address. -/
def SetAccount (ctx : Context) (acc : Account) : Context :=
  let record : AccountRecord := ⟨acc.coins, acc.assetPegWallet⟩
  { ctx with accounts := Function.update ctx.accounts acc.address (some record) }

/-! ## Coin ledger (keeper.go, lines 119-209) -/

/-- Result of `subtractCoins` and `addCoins`. -/
structure CoinsResult where
  ctx : Context
  coins : Coins
  tags : Tags
  err : Option Error

/-- Result of `sendCoins`, `inputOutputCoins` and `issueAssetsToWallets`. -/
structure TagsResult where
  ctx : Context
  tags : Tags
  err : Option Error

def getCoins (ctx : Context) (addr : Address) : Context × Coins :=
  let ctx := ctx.ConsumeGas costGetCoins
  match GetAccount ctx addr with
  | none => (ctx, [])
  | some acc => (ctx, acc.GetCoins)

def setCoins (ctx : Context) (addr : Address) (amt : Coins) : Context × Option Error :=
  let ctx := ctx.ConsumeGas costSetCoins
  let acc := match GetAccount ctx addr with
    | none => NewAccountWithAddress ctx addr
    | some acc => acc
  let acc := acc.SetCoins amt
  let ctx := SetAccount ctx acc
  (ctx, none)

def hasCoins (ctx : Context) (addr : Address) (amt : Coins) : Context × Bool :=
  let ctx := ctx.ConsumeGas costHasCoins
  let r := getCoins ctx addr
  (r.1, Coins.IsGTE r.2 amt)

def subtractCoins (ctx : Context) (addr : Address) (amt : Coins) : CoinsResult :=
  let ctx := ctx.ConsumeGas costSubtractCoins
  let r := getCoins ctx addr
  let oldCoins := r.2
  let newCoins := Coins.Minus oldCoins amt
  if !Coins.IsNotNegative newCoins then
    ⟨r.1, amt, [], some (Error.ErrInsufficientCoins (ErrMsg.lessThan oldCoins amt))⟩
  else
    let w := setCoins r.1 addr newCoins
    let tags := NewTags "sender" addr.String
    ⟨w.1, newCoins, tags, w.2⟩

def addCoins (ctx : Context) (addr : Address) (amt : Coins) : CoinsResult :=
  let ctx := ctx.ConsumeGas costAddCoins
  let r := getCoins ctx addr
  let oldCoins := r.2
  let newCoins := Coins.Plus oldCoins amt
  if !Coins.IsNotNegative newCoins then
    ⟨r.1, amt, [], some (Error.ErrInsufficientCoins (ErrMsg.lessThan oldCoins amt))⟩
  else
    let w := setCoins r.1 addr newCoins
    let tags := NewTags "recipient" addr.String
    ⟨w.1, newCoins, tags, w.2⟩

def sendCoins (ctx : Context) (fromAddr toAddr : Address) (amt : Coins) : TagsResult :=
  let s := subtractCoins ctx fromAddr amt
  match s.err with
  | some err => ⟨s.ctx, [], some err⟩
  | none =>
    let a := addCoins s.ctx toAddr amt
    match a.err with
    | some err => ⟨a.ctx, [], some err⟩
    | none => ⟨a.ctx, Tags.AppendTags s.tags a.tags, none⟩

/-- Element of the `inputs` list of `inputOutputCoins` (declared in `x/bank/msgs.go`). -/
structure Input where
  Address : Address
  Coins : Coins
deriving DecidableEq, Repr

/-- Element of the `outputs` list of `inputOutputCoins` (declared in `x/bank/msgs.go`). -/
structure Output where
  Address : Address
  Coins : Coins
deriving DecidableEq, Repr

/-- The loop `for _, in := range inputs` of `inputOutputCoins`, from the state
`(ctx, allTags)` on. -/
def inputLoop (ctx : Context) (allTags : Tags) : List Input → TagsResult
  | [] => ⟨ctx, allTags, none⟩
  | inp :: rest =>
    let s := subtractCoins ctx inp.Address inp.Coins
    match s.err with
    | some err => ⟨s.ctx, [], some err⟩
    | none => inputLoop s.ctx (Tags.AppendTags allTags s.tags) rest

/-- The loop `for _, out := range outputs` of `inputOutputCoins`, from the state
`(ctx, allTags)` on. -/
def outputLoop (ctx : Context) (allTags : Tags) : List Output → TagsResult
  | [] => ⟨ctx, allTags, none⟩
  | out :: rest =>
    let a := addCoins ctx out.Address out.Coins
    match a.err with
    | some err => ⟨a.ctx, [], some err⟩
    | none => outputLoop a.ctx (Tags.AppendTags allTags a.tags) rest

def inputOutputCoins (ctx : Context) (inputs : List Input) (outputs : List Output) :
    TagsResult :=
  let allTags := EmptyTags
  let i := inputLoop ctx allTags inputs
  match i.err with
  | some err => ⟨i.ctx, [], some err⟩
  | none => outputLoop i.ctx i.tags outputs

/-! ## Asset instance ledger (keeper.go, lines 211-269) -/

def getAssetWallet (ctx : Context) (addr : Address) : AssetPegWallet :=
  match GetAccount ctx addr with
  | none => []
  | some acc => acc.GetAssetPegWallet

def setAssetWallet (ctx : Context) (addr : Address) (asset : AssetPegWallet) :
    Context × Option Error :=
  let acc := match GetAccount ctx addr with
    | none => NewAccountWithAddress ctx addr
    | some acc => acc
  let acc := acc.SetAssetPegWallet asset
  let ctx := SetAccount ctx acc
  (ctx, none)

/-- Result of `instantiateAndAssignAsset`. -/
structure AssetResult where
  ctx : Context
  wallet : AssetPegWallet
  tags : Tags
  err : Option Error

/-- Issuance of one instance.  The result is `none` when the Go code panics on
an index out of range.  The statement `tags.AppendTag("issuer", ..)` is kept as
written: its value is not assigned to anything.  The write into
`assetPegWallet[0]` also changes the caller's slice, which no keeper function
reads again. -/
def instantiateAndAssignAsset (ctx : Context) (issuerAddress toAddress : Address)
    (assetPegWallet : AssetPegWallet) : Option AssetResult :=
  let issuerOldAssetWallet := getAssetWallet ctx issuerAddress
  if issuerOldAssetWallet.length = 0 then
    some ⟨ctx, issuerOldAssetWallet, [],
      some (Error.ErrInsufficientCoins ErrMsg.noAssetsLeft)⟩
  else
    match issuerOldAssetWallet[issuerOldAssetWallet.length - 1]? with
    | none => none
    | some issuedAsset =>
      let issuerNewAssetWallet := issuerOldAssetWallet.take (issuerOldAssetWallet.length - 1)
      let toOldAssetWallet := getAssetWallet ctx toAddress
      match assetPegWallet[0]? with
      | none => none
      | some first =>
        let issuedAsset : AssetPeg := { first with PegHash := issuedAsset.PegHash }
        let toNewAssetWallet := toOldAssetWallet ++ [issuedAsset]
        let w := setAssetWallet ctx issuerAddress issuerNewAssetWallet
        let w := match w.2 with
          | none =>
            let v := setAssetWallet w.1 toAddress toNewAssetWallet
            match v.2 with
            | some err => ((setAssetWallet v.1 issuerAddress issuerOldAssetWallet).1, some err)
            | none => v
          | some err => (w.1, some err)
        let tags := NewTags "recepient" toAddress.String
        let _ := Tags.AppendTag tags "issuer" issuerAddress.String
        some ⟨w.1, [issuedAsset], tags, w.2⟩

/-- Element of the request list of `issueAssetsToWallets` (declared in `x/bank/msgs.go`). -/
structure IssueAsset where
  IssuerAddress : Address
  ToAddress : Address
  AssetPegWallet : AssetPegWallet
deriving DecidableEq, Repr

/-- The loop `for _, req := range issueAsset` of `issueAssetsToWallets`, from the
state `(ctx, allTags)` on; `none` when an issuance panics. -/
def issueLoop (ctx : Context) (allTags : Tags) : List IssueAsset → Option TagsResult
  | [] => some ⟨ctx, allTags, none⟩
  | req :: rest =>
    match instantiateAndAssignAsset ctx req.IssuerAddress req.ToAddress req.AssetPegWallet with
    | none => none
    | some r =>
      match r.err with
      | some err => some ⟨r.ctx, [], some err⟩
      | none => issueLoop r.ctx (Tags.AppendTags allTags r.tags) rest

def issueAssetsToWallets (ctx : Context) (issueAsset : List IssueAsset) : Option TagsResult :=
  let allTags := EmptyTags
  issueLoop ctx allTags issueAsset

/-! ## The three keepers (keeper.go, lines 18-115) -/

/-- Modelled from the spec: `auth.AccountMapper`, the handle through which the
account store of a context is reached; it holds no state of its own. -/
structure AccountMapper where
deriving DecidableEq, Repr

/-- Keeper manages transfers between accounts. -/
structure Keeper where
  am : AccountMapper

def NewKeeper (am : AccountMapper) : Keeper := ⟨am⟩
def Keeper.GetCoins (_keeper : Keeper) (ctx : Context) (addr : Address) := getCoins ctx addr
def Keeper.SetCoins (_keeper : Keeper) (ctx : Context) (addr : Address) (amt : Coins) :=
  setCoins ctx addr amt
def Keeper.HasCoins (_keeper : Keeper) (ctx : Context) (addr : Address) (amt : Coins) :=
  hasCoins ctx addr amt
def Keeper.SubtractCoins (_keeper : Keeper) (ctx : Context) (addr : Address) (amt : Coins) :=
  subtractCoins ctx addr amt
def Keeper.AddCoins (_keeper : Keeper) (ctx : Context) (addr : Address) (amt : Coins) :=
  addCoins ctx addr amt
def Keeper.SendCoins (_keeper : Keeper) (ctx : Context) (fromAddr toAddr : Address)
    (amt : Coins) := sendCoins ctx fromAddr toAddr amt
def Keeper.InputOutputCoins (_keeper : Keeper) (ctx : Context) (inputs : List Input)
    (outputs : List Output) := inputOutputCoins ctx inputs outputs
def Keeper.IssueAssetsToWallets (_keeper : Keeper) (ctx : Context)
    (issueAssets : List IssueAsset) := issueAssetsToWallets ctx issueAssets

/-- SendKeeper only allows transfers between accounts. -/
structure SendKeeper where
  am : AccountMapper

def NewSendKeeper (am : AccountMapper) : SendKeeper := ⟨am⟩
def SendKeeper.GetCoins (_keeper : SendKeeper) (ctx : Context) (addr : Address) :=
  getCoins ctx addr
def SendKeeper.HasCoins (_keeper : SendKeeper) (ctx : Context) (addr : Address)
    (amt : Coins) := hasCoins ctx addr amt
def SendKeeper.SendCoins (_keeper : SendKeeper) (ctx : Context) (fromAddr toAddr : Address)
    (amt : Coins) := sendCoins ctx fromAddr toAddr amt
def SendKeeper.InputOutputCoins (_keeper : SendKeeper) (ctx : Context) (inputs : List Input)
    (outputs : List Output) := inputOutputCoins ctx inputs outputs

/-- ViewKeeper only allows reading of balances. -/
structure ViewKeeper where
  am : AccountMapper

def NewViewKeeper (am : AccountMapper) : ViewKeeper := ⟨am⟩
def ViewKeeper.GetCoins (_keeper : ViewKeeper) (ctx : Context) (addr : Address) :=
  getCoins ctx addr
def ViewKeeper.HasCoins (_keeper : ViewKeeper) (ctx : Context) (addr : Address)
    (amt : Coins) := hasCoins ctx addr amt

/-! ## Concrete stores used in examples -/

/-- Store with one account `A` holding `{atom:100}` (scenario 1). -/
def storeA100 : AccountStore := fun a =>
  if a = "A" then some ⟨[⟨"atom", 100⟩], []⟩ else none

/-- Store with one account `A` holding `{atom:70}` (scenarios 2 and 3). -/
def storeA70 : AccountStore := fun a =>
  if a = "A" then some ⟨[⟨"atom", 70⟩], []⟩ else none

/-- Store without any account. -/
def emptyStore : AccountStore := fun _ => none

/-- Store with one account `A` holding `{atom:1, btc:1}`. -/
def storeAtomBtc : AccountStore := fun a =>
  if a = "A" then some ⟨[⟨"atom", 1⟩, ⟨"btc", 1⟩], []⟩ else none

/-- Every balance recorded in the store passes `IsNotNegative`. -/
def StoreNonNegative (s : AccountStore) : Prop :=
  ∀ a r, s a = some r → Coins.IsNotNegative r.coins = true

/-- Store of scenario 5: the issuer `I` holds the wallet `[P1, P2]`. -/
def storeIssuer : AccountStore := fun a =>
  if a = "I" then some ⟨[], [⟨"h1", "p1"⟩, ⟨"h2", "p2"⟩]⟩ else none

/-- Store of scenario 4: `A` holds `{atom:70}` and `C` holds `{atom:30}`. -/
def storeAC : AccountStore := fun a =>
  if a = "A" then some ⟨[⟨"atom", 70⟩], []⟩
  else if a = "C" then some ⟨[⟨"atom", 30⟩], []⟩ else none

/-- Store of scenario 5 after one issuance from `I` to `R` with the template
`[T]`: `I` holds `[P1]` and `R` holds the instance with the identifier of `P2`. -/
def storeIssued : AccountStore :=
  Function.update (Function.update storeIssuer "I" (some ⟨[], [⟨"h1", "p1"⟩]⟩)) "R"
    (some ⟨[], [⟨"h2", "t"⟩]⟩)

/-! ## Step-by-step description of the batch operations -/

/-- Context after `SubtractCoins` has been applied to each input in list order. -/
def applySubtracts (ctx : Context) : List Input → Context
  | [] => ctx
  | inp :: rest => applySubtracts (subtractCoins ctx inp.Address inp.Coins).ctx rest

/-- Every `SubtractCoins` of the sequence, applied in list order, returns
without error. -/
def subtractsOk (ctx : Context) : List Input → Prop
  | [] => True
  | inp :: rest =>
    (subtractCoins ctx inp.Address inp.Coins).err = none ∧
      subtractsOk (subtractCoins ctx inp.Address inp.Coins).ctx rest

/-- Tags returned by the `SubtractCoins` steps, concatenated in call order. -/
def subtractsTags (ctx : Context) : List Input → Tags
  | [] => []
  | inp :: rest =>
    (subtractCoins ctx inp.Address inp.Coins).tags ++
      subtractsTags (subtractCoins ctx inp.Address inp.Coins).ctx rest

/-- Context after `AddCoins` has been applied to each output in list order. -/
def applyAdds (ctx : Context) : List Output → Context
  | [] => ctx
  | out :: rest => applyAdds (addCoins ctx out.Address out.Coins).ctx rest

/-- Every `AddCoins` of the sequence, applied in list order, returns without
error. -/
def addsOk (ctx : Context) : List Output → Prop
  | [] => True
  | out :: rest =>
    (addCoins ctx out.Address out.Coins).err = none ∧
      addsOk (addCoins ctx out.Address out.Coins).ctx rest

/-- Tags returned by the `AddCoins` steps, concatenated in call order. -/
def addsTags (ctx : Context) : List Output → Tags
  | [] => []
  | out :: rest =>
    (addCoins ctx out.Address out.Coins).tags ++
      addsTags (addCoins ctx out.Address out.Coins).ctx rest

/-- Single issuance applied to the requests in list order, as long as each one
returns without error: the final context and the tags of the requests
concatenated in order; `none` when some request does not succeed. -/
def applyIssues (ctx : Context) : List IssueAsset → Option (Context × Tags)
  | [] => some (ctx, [])
  | req :: rest =>
    match instantiateAndAssignAsset ctx req.IssuerAddress req.ToAddress req.AssetPegWallet with
    | none => none
    | some r =>
      match r.err with
      | some _ => none
      | none =>
        match applyIssues r.ctx rest with
        | none => none
        | some p => some (p.1, r.tags ++ p.2)

/-! ## Basic facts about the store accessors -/

/-- Balance recorded for an address, empty when there is no account. -/
def balanceOf (s : AccountStore) (addr : Address) : Coins :=
  match s addr with
  | none => []
  | some r => r.coins

/-- Wallet recorded for an address, empty when there is no account. -/
def walletOf (s : AccountStore) (addr : Address) : AssetPegWallet :=
  match s addr with
  | none => []
  | some r => r.assetPegWallet

/-- Amount of one denomination held by the listed accounts together. -/
def totalOver (s : AccountStore) (addrs : List Address) (denom : String) : Int :=
  (addrs.map fun a => Coins.AmountOf (balanceOf s a) denom).sum

theorem getCoins_coins (ctx : Context) (addr : Address) :
    (getCoins ctx addr).2 = balanceOf ctx.accounts addr := by
  unfold getCoins balanceOf GetAccount Context.ConsumeGas
  cases h : ctx.accounts addr <;> simp [h, Account.GetCoins]

theorem getCoins_accounts (ctx : Context) (addr : Address) :
    (getCoins ctx addr).1.accounts = ctx.accounts := by
  unfold getCoins GetAccount Context.ConsumeGas
  cases h : ctx.accounts addr <;> simp [h]

theorem getCoins_gas (ctx : Context) (addr : Address) :
    (getCoins ctx addr).1.gasConsumed = ctx.gasConsumed + costGetCoins := by
  unfold getCoins GetAccount Context.ConsumeGas
  cases h : ctx.accounts addr <;> simp [h]

theorem setCoins_accounts (ctx : Context) (addr : Address) (amt : Coins) :
    (setCoins ctx addr amt).1.accounts =
      Function.update ctx.accounts addr (some ⟨amt, walletOf ctx.accounts addr⟩) := by
  unfold setCoins GetAccount Context.ConsumeGas SetAccount NewAccountWithAddress
    Account.SetCoins walletOf
  cases h : ctx.accounts addr <;> simp [h]

theorem setCoins_err (ctx : Context) (addr : Address) (amt : Coins) :
    (setCoins ctx addr amt).2 = none := rfl

theorem balanceOf_update_same (s : AccountStore) (addr : Address) (r : AccountRecord) :
    balanceOf (Function.update s addr (some r)) addr = r.coins := by
  simp [balanceOf]

theorem balanceOf_update_other (s : AccountStore) (addr b : Address) (r : Option AccountRecord)
    (h : b ≠ addr) : balanceOf (Function.update s addr r) b = balanceOf s b := by
  simp [balanceOf, Function.update_noteq h]

theorem isNotNegative_iff (coins : Coins) :
    Coins.IsNotNegative coins = true ↔ ∀ c ∈ coins, 0 ≤ c.Amount := by
  simp [Coins.IsNotNegative]

theorem not_isNotNegative_iff (coins : Coins) :
    Coins.IsNotNegative coins = false ↔ ∃ c ∈ coins, c.Amount < 0 := by
  rw [← Bool.not_eq_true, isNotNegative_iff]
  push_neg
  rfl

/-- Failure branch of `subtractCoins`. -/
theorem subtractCoins_of_neg (ctx : Context) (addr : Address) (amt : Coins)
    (h : Coins.IsNotNegative (Coins.Minus (balanceOf ctx.accounts addr) amt) = false) :
    (subtractCoins ctx addr amt).err =
        some (Error.ErrInsufficientCoins (ErrMsg.lessThan (balanceOf ctx.accounts addr) amt)) ∧
      (subtractCoins ctx addr amt).ctx.accounts = ctx.accounts ∧
      (subtractCoins ctx addr amt).tags = [] ∧
      (subtractCoins ctx addr amt).coins = amt := by
  have hc : (getCoins (ctx.ConsumeGas costSubtractCoins) addr).2 = balanceOf ctx.accounts addr :=
    getCoins_coins _ _
  have ha : (getCoins (ctx.ConsumeGas costSubtractCoins) addr).1.accounts = ctx.accounts :=
    getCoins_accounts _ _
  simp [subtractCoins, hc, h, ha]

/-- Success branch of `subtractCoins`. -/
theorem subtractCoins_of_nonneg (ctx : Context) (addr : Address) (amt : Coins)
    (h : Coins.IsNotNegative (Coins.Minus (balanceOf ctx.accounts addr) amt) = true) :
    (subtractCoins ctx addr amt).err = none ∧
      (subtractCoins ctx addr amt).ctx.accounts =
        Function.update ctx.accounts addr
          (some ⟨Coins.Minus (balanceOf ctx.accounts addr) amt, walletOf ctx.accounts addr⟩) ∧
      (subtractCoins ctx addr amt).tags = [⟨"sender", addr⟩] ∧
      (subtractCoins ctx addr amt).coins = Coins.Minus (balanceOf ctx.accounts addr) amt := by
  have hc : (getCoins (ctx.ConsumeGas costSubtractCoins) addr).2 = balanceOf ctx.accounts addr :=
    getCoins_coins _ _
  have ha : (getCoins (ctx.ConsumeGas costSubtractCoins) addr).1.accounts = ctx.accounts :=
    getCoins_accounts _ _
  simp [subtractCoins, hc, h, setCoins_accounts, ha, setCoins_err, NewTags, Address.String]

/-- Failure branch of `addCoins`. -/
theorem addCoins_of_neg (ctx : Context) (addr : Address) (amt : Coins)
    (h : Coins.IsNotNegative (Coins.Plus (balanceOf ctx.accounts addr) amt) = false) :
    (addCoins ctx addr amt).err =
        some (Error.ErrInsufficientCoins (ErrMsg.lessThan (balanceOf ctx.accounts addr) amt)) ∧
      (addCoins ctx addr amt).ctx.accounts = ctx.accounts ∧
      (addCoins ctx addr amt).tags = [] ∧
      (addCoins ctx addr amt).coins = amt := by
  have hc : (getCoins (ctx.ConsumeGas costAddCoins) addr).2 = balanceOf ctx.accounts addr :=
    getCoins_coins _ _
  have ha : (getCoins (ctx.ConsumeGas costAddCoins) addr).1.accounts = ctx.accounts :=
    getCoins_accounts _ _
  simp [addCoins, hc, h, ha]

/-- Success branch of `addCoins`. -/
theorem addCoins_of_nonneg (ctx : Context) (addr : Address) (amt : Coins)
    (h : Coins.IsNotNegative (Coins.Plus (balanceOf ctx.accounts addr) amt) = true) :
    (addCoins ctx addr amt).err = none ∧
      (addCoins ctx addr amt).ctx.accounts =
        Function.update ctx.accounts addr
          (some ⟨Coins.Plus (balanceOf ctx.accounts addr) amt, walletOf ctx.accounts addr⟩) ∧
      (addCoins ctx addr amt).tags = [⟨"recipient", addr⟩] ∧
      (addCoins ctx addr amt).coins = Coins.Plus (balanceOf ctx.accounts addr) amt := by
  have hc : (getCoins (ctx.ConsumeGas costAddCoins) addr).2 = balanceOf ctx.accounts addr :=
    getCoins_coins _ _
  have ha : (getCoins (ctx.ConsumeGas costAddCoins) addr).1.accounts = ctx.accounts :=
    getCoins_accounts _ _
  simp [addCoins, hc, h, setCoins_accounts, ha, setCoins_err, NewTags, Address.String]

/-! ## SubtractCoins -/

/-- C1: `SubtractCoins(addr, amt)` returns the insufficient-funds error exactly
when `balance(addr) - amt` has a negative denomination (an absent account has
the empty balance), returns no error otherwise, and whenever it returns an
error the account store is the one before the call and no tags are returned. -/
theorem subtractCoins_error_iff (ctx : Context) (addr : Address) (amt : Coins) :
    ((subtractCoins ctx addr amt).err =
        some (Error.ErrInsufficientCoins (ErrMsg.lessThan (getCoins ctx addr).2 amt)) ↔
      ∃ c ∈ Coins.Minus (getCoins ctx addr).2 amt, c.Amount < 0) ∧
    ((subtractCoins ctx addr amt).err = none ↔
      ¬ ∃ c ∈ Coins.Minus (getCoins ctx addr).2 amt, c.Amount < 0) ∧
    ((subtractCoins ctx addr amt).err ≠ none →
      (subtractCoins ctx addr amt).ctx.accounts = ctx.accounts ∧
      (subtractCoins ctx addr amt).tags = []) := by
  rw [getCoins_coins, ← not_isNotNegative_iff]
  cases h : Coins.IsNotNegative (Coins.Minus (balanceOf ctx.accounts addr) amt)
  · obtain ⟨h1, h2, h3, _⟩ := subtractCoins_of_neg ctx addr amt h
    simp [h1, h2, h3]
  · obtain ⟨h1, _, _, _⟩ := subtractCoins_of_nonneg ctx addr amt h
    simp [h1]

/-- Scenario 2 as an instance of C1: `{atom:70} - {atom:1000}` fails and the
store is untouched. -/
theorem subtractCoins_error_iff_witness :
    (subtractCoins ⟨0, storeA70⟩ "A" [⟨"atom", 1000⟩]).err =
        some (Error.ErrInsufficientCoins
          (ErrMsg.lessThan (getCoins ⟨0, storeA70⟩ "A").2 [⟨"atom", 1000⟩])) ∧
      (subtractCoins ⟨0, storeA70⟩ "A" [⟨"atom", 1000⟩]).ctx.accounts = storeA70 ∧
      (subtractCoins ⟨0, storeA70⟩ "A" [⟨"atom", 1000⟩]).tags = [] := by
  have h := subtractCoins_error_iff ⟨0, storeA70⟩ "A" [⟨"atom", 1000⟩]
  have hneg : ∃ c ∈ Coins.Minus (getCoins ⟨0, storeA70⟩ "A").2 [⟨"atom", 1000⟩],
      c.Amount < 0 := by
    simp [getCoins_coins, balanceOf, storeA70, Coins.Minus, Coins.Negative, Coins.Plus,
      Coins.plusStep]
  have herr := h.1.2 hneg
  exact ⟨herr, h.2.2 (by rw [herr]; simp)⟩

/-- C2: when `balance(addr) - amt` has no negative denomination,
`SubtractCoins(addr, amt)` returns no error and the new balance
`balance(addr) - amt`; afterwards the account exists with that balance, every
other account is as before, and the tags are exactly `[("sender", addr)]`. -/
theorem subtractCoins_success (ctx : Context) (addr : Address) (amt : Coins)
    (h : ∀ c ∈ Coins.Minus (getCoins ctx addr).2 amt, 0 ≤ c.Amount) :
    (subtractCoins ctx addr amt).err = none ∧
    (subtractCoins ctx addr amt).coins = Coins.Minus (getCoins ctx addr).2 amt ∧
    (getCoins (subtractCoins ctx addr amt).ctx addr).2 = Coins.Minus (getCoins ctx addr).2 amt ∧
    ((subtractCoins ctx addr amt).ctx.accounts addr).isSome = true ∧
    (∀ b, b ≠ addr → (subtractCoins ctx addr amt).ctx.accounts b = ctx.accounts b) ∧
    (subtractCoins ctx addr amt).tags = [⟨"sender", addr⟩] := by
  rw [getCoins_coins] at h
  obtain ⟨h1, h2, h3, h4⟩ := subtractCoins_of_nonneg ctx addr amt ((isNotNegative_iff _).2 h)
  refine ⟨h1, ?_, ?_, ?_, ?_, h3⟩
  · rw [h4, getCoins_coins]
  · rw [getCoins_coins, getCoins_coins, h2, balanceOf_update_same]
  · simp [h2]
  · intro b hb
    rw [h2, Function.update_noteq hb]

/-- Scenario 1 as an instance of C2: `{atom:100} - {atom:30}` succeeds and
leaves `{atom:70}`. -/
theorem subtractCoins_success_witness :
    (∀ c ∈ Coins.Minus (getCoins ⟨0, storeA100⟩ "A").2 [⟨"atom", 30⟩], 0 ≤ c.Amount) ∧
    (subtractCoins ⟨0, storeA100⟩ "A" [⟨"atom", 30⟩]).err = none ∧
    (getCoins (subtractCoins ⟨0, storeA100⟩ "A" [⟨"atom", 30⟩]).ctx "A").2 = [⟨"atom", 70⟩] := by
  have hmin : Coins.Minus (getCoins ⟨0, storeA100⟩ "A").2 [⟨"atom", 30⟩] = [⟨"atom", 70⟩] := by
    simp [getCoins_coins, balanceOf, storeA100, Coins.Minus, Coins.Negative, Coins.Plus,
      Coins.plusStep]
  have hpre : ∀ c ∈ Coins.Minus (getCoins ⟨0, storeA100⟩ "A").2 [⟨"atom", 30⟩],
      0 ≤ c.Amount := by
    rw [hmin]; simp
  have h := subtractCoins_success ⟨0, storeA100⟩ "A" [⟨"atom", 30⟩] hpre
  exact ⟨hpre, h.1, by rw [h.2.2.1, hmin]⟩

/-! ## Facts about `Coins.Plus` -/

theorem Plus_nil_right (a : Coins) : Coins.Plus a [] = a := by
  cases a <;> rfl

theorem Plus_cons_cons (a : Coin) (as : Coins) (b : Coin) (bs : Coins) :
    Coins.Plus (a :: as) (b :: bs) =
      if a.Denom < b.Denom then a :: Coins.Plus as (b :: bs)
      else if a.Denom = b.Denom then
        if a.Amount + b.Amount = 0 then Coins.Plus as bs
        else ⟨a.Denom, a.Amount + b.Amount⟩ :: Coins.Plus as bs
      else b :: Coins.Plus (a :: as) bs := by
  simp only [Coins.Plus, Coins.plusStep]

/-- Every entry of a sum is an entry of one operand or the sum of two entries
of equal denomination, one from each operand. -/
theorem mem_Plus (c : Coin) (a b : Coins) (h : c ∈ Coins.Plus a b) :
    c ∈ a ∨ c ∈ b ∨ ∃ x ∈ a, ∃ y ∈ b, x.Denom = y.Denom ∧
      c = ⟨x.Denom, x.Amount + y.Amount⟩ ∧ x.Amount + y.Amount ≠ 0 := by
  induction a generalizing b with
  | nil => right; left; simpa [Coins.Plus] using h
  | cons a as iha =>
    induction b with
    | nil => left; simpa [Plus_nil_right] using h
    | cons b bs ihb =>
      rw [Plus_cons_cons] at h
      split_ifs at h with h1 h2 h3
      · rcases List.mem_cons.1 h with h | h
        · left; simp [h]
        · rcases iha _ h with h | h | ⟨x, hx, y, hy, hxy⟩
          · left; simp [h]
          · right; left; exact h
          · right; right; exact ⟨x, by simp [hx], y, hy, hxy⟩
      · rcases iha _ h with h | h | ⟨x, hx, y, hy, hxy⟩
        · left; simp [h]
        · right; left; simp [h]
        · right; right; exact ⟨x, by simp [hx], y, by simp [hy], hxy⟩
      · rcases List.mem_cons.1 h with h | h
        · right; right; exact ⟨a, by simp, b, by simp, h2, h, h3⟩
        · rcases iha _ h with h | h | ⟨x, hx, y, hy, hxy⟩
          · left; simp [h]
          · right; left; simp [h]
          · right; right; exact ⟨x, by simp [hx], y, by simp [hy], hxy⟩
      · rcases List.mem_cons.1 h with h | h
        · right; left; simp [h]
        · rcases ihb h with h | h | ⟨x, hx, y, hy, hxy⟩
          · left; exact h
          · right; left; simp [h]
          · right; right; exact ⟨x, hx, y, by simp [hy], hxy⟩

theorem AmountOf_nil (d : String) : Coins.AmountOf [] d = 0 := rfl

theorem AmountOf_cons (c : Coin) (cs : Coins) (d : String) :
    Coins.AmountOf (c :: cs) d = (if c.Denom = d then c.Amount else 0) + Coins.AmountOf cs d := by
  simp [Coins.AmountOf]

/-- The sum is per denomination. -/
theorem AmountOf_Plus (a b : Coins) (d : String) :
    Coins.AmountOf (Coins.Plus a b) d = Coins.AmountOf a d + Coins.AmountOf b d := by
  induction a generalizing b with
  | nil => simp [Coins.Plus, AmountOf_nil]
  | cons a as iha =>
    induction b with
    | nil => simp [Plus_nil_right, AmountOf_nil]
    | cons b bs ihb =>
      rw [Plus_cons_cons]
      split_ifs with h1 h2 h3
      · rw [AmountOf_cons, iha, AmountOf_cons a]; ring
      · rw [iha, AmountOf_cons a, AmountOf_cons b, ← h2]
        split_ifs <;> linarith
      · rw [AmountOf_cons, iha, AmountOf_cons a, AmountOf_cons b, ← h2]
        split_ifs <;> simp
        ring
      · rw [AmountOf_cons, ihb, AmountOf_cons b]; ring

theorem AmountOf_Negative (a : Coins) (d : String) :
    Coins.AmountOf (Coins.Negative a) d = - Coins.AmountOf a d := by
  induction a with
  | nil => simp [Coins.Negative, AmountOf_nil]
  | cons a as ih =>
    have : Coins.Negative (a :: as) = ⟨a.Denom, -a.Amount⟩ :: Coins.Negative as := rfl
    rw [this, AmountOf_cons, AmountOf_cons, ih]
    split_ifs <;> simp
    ring

theorem AmountOf_Minus (a b : Coins) (d : String) :
    Coins.AmountOf (Coins.Minus a b) d = Coins.AmountOf a d - Coins.AmountOf b d := by
  rw [Coins.Minus, AmountOf_Plus, AmountOf_Negative]; ring

/-- A sum of two values without negative amounts has no negative amount. -/
theorem isNotNegative_Plus (a b : Coins) (ha : Coins.IsNotNegative a = true)
    (hb : Coins.IsNotNegative b = true) : Coins.IsNotNegative (Coins.Plus a b) = true := by
  rw [isNotNegative_iff] at *
  intro c hc
  rcases mem_Plus c a b hc with h | h | ⟨x, hx, y, hy, _, rfl, _⟩
  · exact ha c h
  · exact hb c h
  · exact add_nonneg (ha x hx) (hb y hy)

/-! ## SendCoins -/

/-- What a `sendCoins` without error did: both checks passed, the sender's record
was written first and the recipient's record was then read from and written to
the updated store. -/
theorem sendCoins_of_ok (ctx : Context) (fromAddr toAddr : Address) (amt : Coins)
    (h : (sendCoins ctx fromAddr toAddr amt).err = none) :
    Coins.IsNotNegative (Coins.Minus (balanceOf ctx.accounts fromAddr) amt) = true ∧
    Coins.IsNotNegative (Coins.Plus
      (balanceOf (subtractCoins ctx fromAddr amt).ctx.accounts toAddr) amt) = true ∧
    (sendCoins ctx fromAddr toAddr amt).ctx.accounts =
      (addCoins (subtractCoins ctx fromAddr amt).ctx toAddr amt).ctx.accounts ∧
    (sendCoins ctx fromAddr toAddr amt).tags = [⟨"sender", fromAddr⟩, ⟨"recipient", toAddr⟩] := by
  cases hs : Coins.IsNotNegative (Coins.Minus (balanceOf ctx.accounts fromAddr) amt)
  · obtain ⟨h1, _⟩ := subtractCoins_of_neg ctx fromAddr amt hs
    simp [sendCoins, h1] at h
  · obtain ⟨h1, h2, h3, h4⟩ := subtractCoins_of_nonneg ctx fromAddr amt hs
    cases ha : Coins.IsNotNegative (Coins.Plus
        (balanceOf (subtractCoins ctx fromAddr amt).ctx.accounts toAddr) amt)
    · obtain ⟨g1, _⟩ := addCoins_of_neg (subtractCoins ctx fromAddr amt).ctx toAddr amt ha
      simp [sendCoins, h1, g1] at h
    · obtain ⟨g1, g2, g3, g4⟩ :=
        addCoins_of_nonneg (subtractCoins ctx fromAddr amt).ctx toAddr amt ha
      simp [sendCoins, h1, g1, h3, g3, Tags.AppendTags]

/-- Scenario 3 evaluated: sending `{atom:50}` from `A` (holding `{atom:70}`) to the
absent account `B`. -/
theorem sendCoins_scenario3 :
    (sendCoins ⟨0, storeA70⟩ "A" "B" [⟨"atom", 50⟩]).err = none ∧
    (getCoins (sendCoins ⟨0, storeA70⟩ "A" "B" [⟨"atom", 50⟩]).ctx "A").2 = [⟨"atom", 20⟩] ∧
    (getCoins (sendCoins ⟨0, storeA70⟩ "A" "B" [⟨"atom", 50⟩]).ctx "B").2 = [⟨"atom", 50⟩] := by
  simp +decide [sendCoins, subtractCoins, addCoins, getCoins, setCoins, GetAccount, SetAccount,
    NewAccountWithAddress, Context.ConsumeGas, Account.GetCoins, Account.SetCoins, storeA70,
    Coins.Minus, Coins.Negative, Coins.Plus, Coins.plusStep, Coins.IsNotNegative,
    Function.update]

/-! ## AddCoins -/

/-- C3: when the balance at `addr` and `amt` have no negative amount,
`AddCoins(addr, amt)` does not take its failure path: it returns no error and
the new balance `balance(addr) + amt`; afterwards the account exists with that
balance, every other account is as before, and the tags are exactly
`[("recipient", addr)]`. -/
theorem addCoins_success (ctx : Context) (addr : Address) (amt : Coins)
    (hb : ∀ c ∈ (getCoins ctx addr).2, 0 ≤ c.Amount) (ha : ∀ c ∈ amt, 0 ≤ c.Amount) :
    (addCoins ctx addr amt).err = none ∧
    (addCoins ctx addr amt).coins = Coins.Plus (getCoins ctx addr).2 amt ∧
    (getCoins (addCoins ctx addr amt).ctx addr).2 = Coins.Plus (getCoins ctx addr).2 amt ∧
    ((addCoins ctx addr amt).ctx.accounts addr).isSome = true ∧
    (∀ b, b ≠ addr → (addCoins ctx addr amt).ctx.accounts b = ctx.accounts b) ∧
    (addCoins ctx addr amt).tags = [⟨"recipient", addr⟩] := by
  rw [getCoins_coins] at hb
  have hp := isNotNegative_Plus _ _ ((isNotNegative_iff _).2 hb) ((isNotNegative_iff _).2 ha)
  obtain ⟨h1, h2, h3, h4⟩ := addCoins_of_nonneg ctx addr amt hp
  refine ⟨h1, ?_, ?_, ?_, ?_, h3⟩
  · rw [h4, getCoins_coins]
  · rw [getCoins_coins, getCoins_coins, h2, balanceOf_update_same]
  · simp [h2]
  · intro b hb
    rw [h2, Function.update_noteq hb]

/-- Instance of C3: crediting `{atom:50}` to the absent account `B` creates it
with that balance. -/
theorem addCoins_success_witness :
    (∀ c ∈ (getCoins ⟨0, storeA70⟩ "B").2, 0 ≤ c.Amount) ∧
    (∀ c ∈ ([⟨"atom", 50⟩] : Coins), 0 ≤ c.Amount) ∧
    (addCoins ⟨0, storeA70⟩ "B" [⟨"atom", 50⟩]).err = none ∧
    (getCoins (addCoins ⟨0, storeA70⟩ "B" [⟨"atom", 50⟩]).ctx "B").2 = [⟨"atom", 50⟩] := by
  have hbal : (getCoins ⟨0, storeA70⟩ "B").2 = [] := by
    simp +decide [getCoins_coins, balanceOf, storeA70]
  have hb : ∀ c ∈ (getCoins ⟨0, storeA70⟩ "B").2, 0 ≤ c.Amount := by rw [hbal]; simp
  have ha : ∀ c ∈ ([⟨"atom", 50⟩] : Coins), 0 ≤ c.Amount := by simp
  have h := addCoins_success ⟨0, storeA70⟩ "B" [⟨"atom", 50⟩] hb ha
  exact ⟨hb, ha, h.1, by rw [h.2.2.1, hbal]; rfl⟩

/-! ## SendCoins: conservation and effect -/

/-- C4: conservation.  If `SendCoins(A, B, amt)` succeeds then, in every
denomination, the balances of `A` and `B` add up to what they added up to
before (also when `A = B`), and every other account is unchanged. -/
theorem sendCoins_conservation (ctx : Context) (A B : Address) (amt : Coins)
    (h : (sendCoins ctx A B amt).err = none) :
    (∀ d, Coins.AmountOf (getCoins (sendCoins ctx A B amt).ctx A).2 d +
          Coins.AmountOf (getCoins (sendCoins ctx A B amt).ctx B).2 d =
        Coins.AmountOf (getCoins ctx A).2 d + Coins.AmountOf (getCoins ctx B).2 d) ∧
    (∀ c, c ≠ A → c ≠ B → (sendCoins ctx A B amt).ctx.accounts c = ctx.accounts c) := by
  obtain ⟨hs, ha, hacc, _⟩ := sendCoins_of_ok ctx A B amt h
  obtain ⟨_, s2, _, _⟩ := subtractCoins_of_nonneg ctx A amt hs
  obtain ⟨_, a2, _, _⟩ := addCoins_of_nonneg (subtractCoins ctx A amt).ctx B amt ha
  rw [a2] at hacc
  constructor
  · intro d
    simp only [getCoins_coins, hacc, balanceOf_update_same]
    by_cases hAB : A = B
    · subst hAB
      simp only [s2, balanceOf_update_same, AmountOf_Plus, AmountOf_Minus]
      ring
    · simp only [s2, balanceOf_update_other _ _ _ _ hAB, balanceOf_update_same,
        balanceOf_update_other _ _ _ _ (Ne.symm hAB), AmountOf_Plus, AmountOf_Minus]
      ring
  · intro c hcA hcB
    rw [hacc, Function.update_noteq hcB, s2, Function.update_noteq hcA]

/-- Scenario 3 as an instance of C4. -/
theorem sendCoins_conservation_witness :
    (sendCoins ⟨0, storeA70⟩ "A" "B" [⟨"atom", 50⟩]).err = none ∧
    (∀ d, Coins.AmountOf (getCoins (sendCoins ⟨0, storeA70⟩ "A" "B" [⟨"atom", 50⟩]).ctx "A").2 d +
          Coins.AmountOf (getCoins (sendCoins ⟨0, storeA70⟩ "A" "B" [⟨"atom", 50⟩]).ctx "B").2 d =
        Coins.AmountOf (getCoins ⟨0, storeA70⟩ "A").2 d +
          Coins.AmountOf (getCoins ⟨0, storeA70⟩ "B").2 d) :=
  ⟨sendCoins_scenario3.1,
    (sendCoins_conservation ⟨0, storeA70⟩ "A" "B" [⟨"atom", 50⟩] sendCoins_scenario3.1).1⟩

/-- C5: if `SendCoins(A, B, amt)` succeeds for distinct `A` and `B`, then
afterwards `balance(A)` is the old balance minus `amt`, `balance(B)` is the old
balance plus `amt`, and the tags are `[("sender", A), ("recipient", B)]`. -/
theorem sendCoins_effect (ctx : Context) (A B : Address) (amt : Coins) (hAB : A ≠ B)
    (h : (sendCoins ctx A B amt).err = none) :
    (getCoins (sendCoins ctx A B amt).ctx A).2 = Coins.Minus (getCoins ctx A).2 amt ∧
    (getCoins (sendCoins ctx A B amt).ctx B).2 = Coins.Plus (getCoins ctx B).2 amt ∧
    (sendCoins ctx A B amt).tags =
      Tags.AppendTags (subtractCoins ctx A amt).tags
        (addCoins (subtractCoins ctx A amt).ctx B amt).tags ∧
    (sendCoins ctx A B amt).tags = [⟨"sender", A⟩, ⟨"recipient", B⟩] := by
  obtain ⟨hs, ha, hacc, htags⟩ := sendCoins_of_ok ctx A B amt h
  obtain ⟨_, s2, s3, _⟩ := subtractCoins_of_nonneg ctx A amt hs
  obtain ⟨_, a2, a3, _⟩ := addCoins_of_nonneg (subtractCoins ctx A amt).ctx B amt ha
  rw [a2] at hacc
  refine ⟨?_, ?_, ?_, htags⟩
  · rw [getCoins_coins, getCoins_coins, hacc, balanceOf_update_other _ _ _ _ hAB, s2,
      balanceOf_update_same]
  · rw [getCoins_coins, getCoins_coins, hacc, balanceOf_update_same, s2,
      balanceOf_update_other _ _ _ _ (Ne.symm hAB)]
  · rw [htags, s3, a3]; rfl

/-- Scenario 3 as an instance of C5: `A` ends with `{atom:20}`, `B` with
`{atom:50}`, and the tags are the sender tag followed by the recipient tag. -/
theorem sendCoins_effect_witness :
    ("A" : Address) ≠ "B" ∧
    (sendCoins ⟨0, storeA70⟩ "A" "B" [⟨"atom", 50⟩]).err = none ∧
    (sendCoins ⟨0, storeA70⟩ "A" "B" [⟨"atom", 50⟩]).tags =
      [⟨"sender", "A"⟩, ⟨"recipient", "B"⟩] :=
  ⟨by decide, sendCoins_scenario3.1,
    (sendCoins_effect ⟨0, storeA70⟩ "A" "B" [⟨"atom", 50⟩] (by decide)
      sendCoins_scenario3.1).2.2.2⟩

/-! ## Sorted and canonical values -/

theorem Negative_sorted (a : Coins) (h : Coins.IsSorted a) : Coins.IsSorted (Coins.Negative a) := by
  unfold Coins.IsSorted Coins.Negative
  rw [List.pairwise_map]
  exact h

theorem mem_Negative (c : Coin) (a : Coins) :
    c ∈ Coins.Negative a ↔ ∃ x ∈ a, c = ⟨x.Denom, -x.Amount⟩ := by
  simp only [Coins.Negative, List.mem_map]
  constructor
  · rintro ⟨x, hx, rfl⟩; exact ⟨x, hx, rfl⟩
  · rintro ⟨x, hx, rfl⟩; exact ⟨x, hx, rfl⟩

/-- The denomination of an entry of a sum occurs in one of the operands. -/
theorem denom_of_mem_Plus (c : Coin) (a b : Coins) (h : c ∈ Coins.Plus a b) :
    (∃ x ∈ a, x.Denom = c.Denom) ∨ (∃ y ∈ b, y.Denom = c.Denom) := by
  rcases mem_Plus c a b h with h | h | ⟨x, hx, y, _, _, rfl, _⟩
  · exact Or.inl ⟨c, h, rfl⟩
  · exact Or.inr ⟨c, h, rfl⟩
  · exact Or.inl ⟨x, hx, rfl⟩

/-- The sum of two sorted values is sorted. -/
theorem Plus_sorted (a b : Coins) (ha : Coins.IsSorted a) (hb : Coins.IsSorted b) :
    Coins.IsSorted (Coins.Plus a b) := by
  unfold Coins.IsSorted at *
  induction a generalizing b with
  | nil => simpa [Coins.Plus] using hb
  | cons a as iha =>
    induction b with
    | nil => simpa [Plus_nil_right] using ha
    | cons b bs ihb =>
      have ha1 := (List.pairwise_cons.1 ha).1
      have ha2 := (List.pairwise_cons.1 ha).2
      have hb1 := (List.pairwise_cons.1 hb).1
      have hb2 := (List.pairwise_cons.1 hb).2
      rw [Plus_cons_cons]
      split_ifs with h1 h2 h3
      · refine List.pairwise_cons.2 ⟨?_, iha _ ha2 hb⟩
        intro c hc
        rcases denom_of_mem_Plus c _ _ hc with ⟨x, hx, hxc⟩ | ⟨y, hy, hyc⟩
        · rw [← hxc]; exact ha1 x hx
        · rw [← hyc]
          rcases List.mem_cons.1 hy with rfl | hy
          · exact h1
          · exact lt_trans h1 (hb1 y hy)
      · exact iha _ ha2 hb2
      · refine List.pairwise_cons.2 ⟨?_, iha _ ha2 hb2⟩
        intro c hc
        rcases denom_of_mem_Plus c _ _ hc with ⟨x, hx, hxc⟩ | ⟨y, hy, hyc⟩
        · rw [← hxc]; exact ha1 x hx
        · rw [← hyc]; show a.Denom < y.Denom; rw [h2]; exact hb1 y hy
      · have hba : b.Denom < a.Denom :=
          lt_of_le_of_ne (not_lt.1 h1) (fun h => h2 h.symm)
        refine List.pairwise_cons.2 ⟨?_, ihb hb2⟩
        intro c hc
        rcases denom_of_mem_Plus c _ _ hc with ⟨x, hx, hxc⟩ | ⟨y, hy, hyc⟩
        · rw [← hxc]
          rcases List.mem_cons.1 hx with rfl | hx
          · exact hba
          · exact lt_trans hba (ha1 x hx)
        · rw [← hyc]; exact hb1 y hy

/-- The sum of two values without zero amounts has no zero amount. -/
theorem Plus_nonzero (a b : Coins) (ha : ∀ c ∈ a, c.Amount ≠ 0) (hb : ∀ c ∈ b, c.Amount ≠ 0) :
    ∀ c ∈ Coins.Plus a b, c.Amount ≠ 0 := by
  intro c hc
  rcases mem_Plus c a b hc with h | h | ⟨x, _, y, _, _, rfl, hne⟩
  · exact ha c h
  · exact hb c h
  · exact hne

theorem AmountOf_eq_zero (a : Coins) (d : String) (h : ∀ c ∈ a, c.Denom ≠ d) :
    Coins.AmountOf a d = 0 := by
  induction a with
  | nil => rfl
  | cons a as ih =>
    rw [AmountOf_cons, ih (fun c hc => h c (List.mem_cons_of_mem _ hc)),
      if_neg (h a (List.mem_cons_self _ _))]
    rfl

/-- In a sorted value the amount of a denomination is the amount of its entry. -/
theorem AmountOf_of_mem (a : Coins) (hs : Coins.IsSorted a) (c : Coin) (hc : c ∈ a) :
    Coins.AmountOf a c.Denom = c.Amount := by
  unfold Coins.IsSorted at hs
  induction a with
  | nil => simp at hc
  | cons a as ih =>
    have h1 := (List.pairwise_cons.1 hs).1
    have h2 := (List.pairwise_cons.1 hs).2
    rw [AmountOf_cons]
    rcases List.mem_cons.1 hc with rfl | hc
    · rw [AmountOf_eq_zero as _ (fun x hx => ne_of_gt (h1 x hx))]
      simp
    · rw [if_neg (ne_of_lt (h1 c hc)), ih h2 hc]
      simp

theorem AmountOf_nonneg (a : Coins) (h : Coins.IsNotNegative a = true) (d : String) :
    0 ≤ Coins.AmountOf a d := by
  rw [isNotNegative_iff] at h
  induction a with
  | nil => simp [AmountOf_nil]
  | cons a as ih =>
    rw [AmountOf_cons]
    have := h a (List.mem_cons_self _ _)
    have := ih (fun c hc => h c (List.mem_cons_of_mem _ hc))
    split_ifs <;> omega

/-- A sorted value has no negative entry exactly when its amount is
non-negative in every denomination. -/
theorem isNotNegative_iff_AmountOf (a : Coins) (hs : Coins.IsSorted a) :
    Coins.IsNotNegative a = true ↔ ∀ d, 0 ≤ Coins.AmountOf a d := by
  constructor
  · exact AmountOf_nonneg a
  · intro h
    rw [isNotNegative_iff]
    intro c hc
    rw [← AmountOf_of_mem a hs c hc]
    exact h c.Denom

/-- Two canonical values with the same amount in every denomination are equal. -/
theorem canonical_ext (a b : Coins) (ha : Coins.IsCanonical a) (hb : Coins.IsCanonical b)
    (h : ∀ d, Coins.AmountOf a d = Coins.AmountOf b d) : a = b := by
  induction a generalizing b with
  | nil =>
    cases b with
    | nil => rfl
    | cons b bs =>
      have h1 := h b.Denom
      rw [AmountOf_of_mem _ hb.1 b (List.mem_cons_self _ _), AmountOf_nil] at h1
      exact absurd h1.symm (hb.2 b (List.mem_cons_self _ _))
  | cons a as ih =>
    cases b with
    | nil =>
      have h1 := h a.Denom
      rw [AmountOf_of_mem _ ha.1 a (List.mem_cons_self _ _), AmountOf_nil] at h1
      exact absurd h1 (ha.2 a (List.mem_cons_self _ _))
    | cons b bs =>
      have hsa := List.pairwise_cons.1 ha.1
      have hsb := List.pairwise_cons.1 hb.1
      have hA := AmountOf_of_mem _ ha.1 a (List.mem_cons_self _ _)
      have hB := AmountOf_of_mem _ hb.1 b (List.mem_cons_self _ _)
      have hden : a.Denom = b.Denom := by
        rcases lt_trichotomy a.Denom b.Denom with hlt | heq | hgt
        · exfalso
          have hz : Coins.AmountOf (b :: bs) a.Denom = 0 := by
            apply AmountOf_eq_zero
            intro c hc
            rcases List.mem_cons.1 hc with rfl | hc
            · exact ne_of_gt hlt
            · exact ne_of_gt (lt_trans hlt (hsb.1 c hc))
          rw [← h, hA] at hz
          exact ha.2 a (List.mem_cons_self _ _) hz
        · exact heq
        · exfalso
          have hz : Coins.AmountOf (a :: as) b.Denom = 0 := by
            apply AmountOf_eq_zero
            intro c hc
            rcases List.mem_cons.1 hc with rfl | hc
            · exact ne_of_gt hgt
            · exact ne_of_gt (lt_trans hgt (hsa.1 c hc))
          rw [h, hB] at hz
          exact hb.2 b (List.mem_cons_self _ _) hz
      have hamt : a.Amount = b.Amount := by
        rw [← hA, h, hden, hB]
      have hab : a = b := by
        cases a; cases b; simp_all
      subst hab
      have htl : as = bs := by
        apply ih bs ⟨hsa.2, fun c hc => ha.2 c (List.mem_cons_of_mem _ hc)⟩
          ⟨hsb.2, fun c hc => hb.2 c (List.mem_cons_of_mem _ hc)⟩
        intro d
        have := h d
        rw [AmountOf_cons, AmountOf_cons] at this
        linarith
      rw [htl]

theorem Negative_canonical (a : Coins) (h : Coins.IsCanonical a) :
    Coins.IsCanonical (Coins.Negative a) := by
  refine ⟨Negative_sorted a h.1, ?_⟩
  intro c hc
  obtain ⟨x, hx, rfl⟩ := (mem_Negative c a).1 hc
  simpa using h.2 x hx

theorem Plus_canonical (a b : Coins) (ha : Coins.IsCanonical a) (hb : Coins.IsCanonical b) :
    Coins.IsCanonical (Coins.Plus a b) :=
  ⟨Plus_sorted a b ha.1 hb.1, Plus_nonzero a b ha.2 hb.2⟩

/-- Adding back what was subtracted restores a canonical value. -/
theorem Plus_Minus_cancel (a b : Coins) (ha : Coins.IsCanonical a) (hb : Coins.IsCanonical b) :
    Coins.Plus (Coins.Minus a b) b = a := by
  apply canonical_ext _ _ _ ha
  · intro d
    rw [AmountOf_Plus, AmountOf_Minus]; ring
  · exact Plus_canonical _ _ (Plus_canonical _ _ ha (Negative_canonical b hb)) hb

/-- For sorted operands and a left operand without negative amount, `IsGTE` holds
exactly when every entry of the right operand is covered. -/
theorem isGTE_iff (a b : Coins) (ha : Coins.IsSorted a) (hn : Coins.IsNotNegative a = true)
    (hb : Coins.IsSorted b) :
    Coins.IsGTE a b = true ↔ ∀ c ∈ b, c.Amount ≤ Coins.AmountOf a c.Denom := by
  have hs : Coins.IsSorted (Coins.Minus a b) := Plus_sorted _ _ ha (Negative_sorted b hb)
  unfold Coins.IsGTE
  rw [isNotNegative_iff_AmountOf _ hs]
  constructor
  · intro h c hc
    have := h c.Denom
    rw [AmountOf_Minus, AmountOf_of_mem b hb c hc] at this
    linarith
  · intro h d
    rw [AmountOf_Minus]
    by_cases hd : ∃ c ∈ b, c.Denom = d
    · obtain ⟨c, hc, rfl⟩ := hd
      rw [AmountOf_of_mem b hb c hc]
      linarith [h c hc]
    · push_neg at hd
      rw [AmountOf_eq_zero b d hd]
      linarith [AmountOf_nonneg a hn d]

/-! ## HasCoins -/

theorem hasCoins_eq (ctx : Context) (addr : Address) (amt : Coins) :
    (hasCoins ctx addr amt).2 = Coins.IsGTE (balanceOf ctx.accounts addr) amt := by
  have hc : (getCoins (ctx.ConsumeGas costHasCoins) addr).2 = balanceOf ctx.accounts addr :=
    getCoins_coins _ _
  simp [hasCoins, hc]

/-- C6, as stated, fails.  After `SetCoins(A, {atom:-1})` on the empty store,
`HasCoins(A, {})` is false although no denomination of the amount is
uncovered; and on a balance `{atom:1, btc:1}` the unsorted amount
`[btc:1, atom:1]` gives false although both denominations are covered. -/
theorem hasCoins_unrestricted_fails :
    ((hasCoins (setCoins ⟨0, emptyStore⟩ "A" [⟨"atom", -1⟩]).1 "A" []).2 = false ∧
      ∀ c ∈ ([] : Coins), c.Amount ≤
        Coins.AmountOf (getCoins (setCoins ⟨0, emptyStore⟩ "A" [⟨"atom", -1⟩]).1 "A").2 c.Denom) ∧
    ((hasCoins ⟨0, storeAtomBtc⟩ "A" [⟨"btc", 1⟩, ⟨"atom", 1⟩]).2 = false ∧
      ∀ c ∈ ([⟨"btc", 1⟩, ⟨"atom", 1⟩] : Coins), c.Amount ≤
        Coins.AmountOf (getCoins ⟨0, storeAtomBtc⟩ "A").2 c.Denom) := by
  refine ⟨⟨?_, by simp⟩, ?_, ?_⟩
  · simp +decide [hasCoins_eq, setCoins_accounts, balanceOf, Coins.IsGTE, Coins.Minus,
      Coins.Negative, Coins.Plus, Coins.IsNotNegative]
  · simp +decide [hasCoins_eq, balanceOf, storeAtomBtc, Coins.IsGTE, Coins.Minus,
      Coins.Negative, Coins.Plus, Coins.plusStep, Coins.IsNotNegative, String.lt_iff_toList_lt]
  · simp +decide [getCoins_coins, balanceOf, storeAtomBtc, Coins.AmountOf]

/-- C6, amended: when the balance at `addr` is sorted by denomination and has no
negative amount and `amt` is sorted by denomination, `HasCoins(addr, amt)` is
true if and only if, for every entry of `amt`, the balance in that denomination
(zero when absent) is at least the entry's amount. -/
theorem hasCoins_iff (ctx : Context) (addr : Address) (amt : Coins)
    (hs : Coins.IsSorted (getCoins ctx addr).2)
    (hn : ∀ c ∈ (getCoins ctx addr).2, 0 ≤ c.Amount)
    (ha : Coins.IsSorted amt) :
    (hasCoins ctx addr amt).2 = true ↔
      ∀ c ∈ amt, c.Amount ≤ Coins.AmountOf (getCoins ctx addr).2 c.Denom := by
  rw [getCoins_coins] at hs hn ⊢
  rw [hasCoins_eq]
  exact isGTE_iff _ _ hs ((isNotNegative_iff _).2 hn) ha

/-- Instance of the amended C6: `{atom:70}` covers `{atom:50}`. -/
theorem hasCoins_iff_witness :
    Coins.IsSorted (getCoins ⟨0, storeA70⟩ "A").2 ∧
    (∀ c ∈ (getCoins ⟨0, storeA70⟩ "A").2, 0 ≤ c.Amount) ∧
    Coins.IsSorted [⟨"atom", 50⟩] ∧
    (hasCoins ⟨0, storeA70⟩ "A" [⟨"atom", 50⟩]).2 = true := by
  have hbal : (getCoins ⟨0, storeA70⟩ "A").2 = [⟨"atom", 70⟩] := by
    simp [getCoins_coins, balanceOf, storeA70]
  have hs : Coins.IsSorted (getCoins ⟨0, storeA70⟩ "A").2 := by
    rw [hbal]; simp [Coins.IsSorted]
  have hn : ∀ c ∈ (getCoins ⟨0, storeA70⟩ "A").2, 0 ≤ c.Amount := by
    rw [hbal]; simp
  have ha : Coins.IsSorted [⟨"atom", 50⟩] := by simp [Coins.IsSorted]
  refine ⟨hs, hn, ha, (hasCoins_iff ⟨0, storeA70⟩ "A" [⟨"atom", 50⟩] hs hn ha).2 ?_⟩
  rw [hbal]
  simp [Coins.AmountOf]

/-! ## Round trip -/

/-- C7: when the balance at `addr` and `amt` are valid (canonical, no negative
amount) and `SubtractCoins(addr, amt)` succeeds, the `AddCoins(addr, amt)` that
follows succeeds too and `GetCoins(addr)` then returns the balance from before
the subtraction. -/
theorem subtract_add_roundtrip (ctx : Context) (addr : Address) (amt : Coins)
    (hb : Coins.IsValid (getCoins ctx addr).2) (ha : Coins.IsValid amt)
    (hs : (subtractCoins ctx addr amt).err = none) :
    (addCoins (subtractCoins ctx addr amt).ctx addr amt).err = none ∧
    (getCoins (addCoins (subtractCoins ctx addr amt).ctx addr amt).ctx addr).2 =
      (getCoins ctx addr).2 := by
  rw [getCoins_coins] at hb
  have hnn : Coins.IsNotNegative (Coins.Minus (balanceOf ctx.accounts addr) amt) = true := by
    cases hc : Coins.IsNotNegative (Coins.Minus (balanceOf ctx.accounts addr) amt)
    · rw [(subtractCoins_of_neg ctx addr amt hc).1] at hs
      exact absurd hs (by simp)
    · rfl
  obtain ⟨_, s2, _, _⟩ := subtractCoins_of_nonneg ctx addr amt hnn
  have hbal : balanceOf (subtractCoins ctx addr amt).ctx.accounts addr =
      Coins.Minus (balanceOf ctx.accounts addr) amt := by
    rw [s2, balanceOf_update_same]
  have hback : Coins.Plus (balanceOf (subtractCoins ctx addr amt).ctx.accounts addr) amt =
      balanceOf ctx.accounts addr := by
    rw [hbal]; exact Plus_Minus_cancel _ _ hb.1 ha.1
  have hpos : Coins.IsNotNegative
      (Coins.Plus (balanceOf (subtractCoins ctx addr amt).ctx.accounts addr) amt) = true := by
    rw [hback]; exact hb.2
  obtain ⟨a1, a2, _, _⟩ := addCoins_of_nonneg (subtractCoins ctx addr amt).ctx addr amt hpos
  refine ⟨a1, ?_⟩
  rw [getCoins_coins, getCoins_coins, a2, balanceOf_update_same]
  exact hback

/-- Instance of C7: `{atom:100}` minus and plus `{atom:30}` is `{atom:100}` again. -/
theorem subtract_add_roundtrip_witness :
    Coins.IsValid (getCoins ⟨0, storeA100⟩ "A").2 ∧
    Coins.IsValid [⟨"atom", 30⟩] ∧
    (subtractCoins ⟨0, storeA100⟩ "A" [⟨"atom", 30⟩]).err = none ∧
    (getCoins (addCoins (subtractCoins ⟨0, storeA100⟩ "A" [⟨"atom", 30⟩]).ctx "A"
      [⟨"atom", 30⟩]).ctx "A").2 = [⟨"atom", 100⟩] := by
  have hbal : (getCoins ⟨0, storeA100⟩ "A").2 = [⟨"atom", 100⟩] := by
    simp [getCoins_coins, balanceOf, storeA100]
  have hb : Coins.IsValid (getCoins ⟨0, storeA100⟩ "A").2 := by
    rw [hbal]; simp [Coins.IsValid, Coins.IsCanonical, Coins.IsSorted, Coins.IsNotNegative]
  have ha : Coins.IsValid [⟨"atom", 30⟩] := by
    simp [Coins.IsValid, Coins.IsCanonical, Coins.IsSorted, Coins.IsNotNegative]
  have hs : (subtractCoins ⟨0, storeA100⟩ "A" [⟨"atom", 30⟩]).err = none := by
    apply (subtractCoins_of_nonneg _ _ _ _).1
    simp [balanceOf, storeA100, Coins.Minus, Coins.Negative, Coins.Plus, Coins.plusStep,
      Coins.IsNotNegative]
  have h := subtract_add_roundtrip ⟨0, storeA100⟩ "A" [⟨"atom", 30⟩] hb ha hs
  exact ⟨hb, ha, hs, by rw [h.2, hbal]⟩

/-! ## Non-negativity of stored balances -/

theorem storeNonNegative_update (s : AccountStore) (addr : Address) (r : AccountRecord)
    (hs : StoreNonNegative s) (hr : Coins.IsNotNegative r.coins = true) :
    StoreNonNegative (Function.update s addr (some r)) := by
  intro a x hx
  by_cases ha : a = addr
  · subst ha
    rw [Function.update_same] at hx
    cases hx
    exact hr
  · rw [Function.update_noteq ha] at hx
    exact hs a x hx

theorem subtractCoins_nonNegative (ctx : Context) (addr : Address) (amt : Coins)
    (h : StoreNonNegative ctx.accounts) :
    StoreNonNegative (subtractCoins ctx addr amt).ctx.accounts := by
  cases hc : Coins.IsNotNegative (Coins.Minus (balanceOf ctx.accounts addr) amt)
  · rw [(subtractCoins_of_neg ctx addr amt hc).2.1]; exact h
  · rw [(subtractCoins_of_nonneg ctx addr amt hc).2.1]
    exact storeNonNegative_update _ _ _ h hc

theorem addCoins_nonNegative (ctx : Context) (addr : Address) (amt : Coins)
    (h : StoreNonNegative ctx.accounts) :
    StoreNonNegative (addCoins ctx addr amt).ctx.accounts := by
  cases hc : Coins.IsNotNegative (Coins.Plus (balanceOf ctx.accounts addr) amt)
  · rw [(addCoins_of_neg ctx addr amt hc).2.1]; exact h
  · rw [(addCoins_of_nonneg ctx addr amt hc).2.1]
    exact storeNonNegative_update _ _ _ h hc

theorem sendCoins_nonNegative (ctx : Context) (fromAddr toAddr : Address) (amt : Coins)
    (h : StoreNonNegative ctx.accounts) :
    StoreNonNegative (sendCoins ctx fromAddr toAddr amt).ctx.accounts := by
  have hs := subtractCoins_nonNegative ctx fromAddr amt h
  have ha := addCoins_nonNegative (subtractCoins ctx fromAddr amt).ctx toAddr amt hs
  unfold sendCoins
  cases h1 : (subtractCoins ctx fromAddr amt).err with
  | some e => simpa [h1] using hs
  | none =>
    cases h2 : (addCoins (subtractCoins ctx fromAddr amt).ctx toAddr amt).err with
    | some e => simpa [h1, h2] using ha
    | none => simpa [h1, h2] using ha

theorem inputLoop_nonNegative (inputs : List Input) (ctx : Context) (allTags : Tags)
    (h : StoreNonNegative ctx.accounts) :
    StoreNonNegative (inputLoop ctx allTags inputs).ctx.accounts := by
  induction inputs generalizing ctx allTags with
  | nil => simpa [inputLoop] using h
  | cons inp rest ih =>
    have hs := subtractCoins_nonNegative ctx inp.Address inp.Coins h
    unfold inputLoop
    cases h1 : (subtractCoins ctx inp.Address inp.Coins).err with
    | some e => simpa [h1] using hs
    | none => simpa [h1] using ih _ _ hs

theorem outputLoop_nonNegative (outputs : List Output) (ctx : Context) (allTags : Tags)
    (h : StoreNonNegative ctx.accounts) :
    StoreNonNegative (outputLoop ctx allTags outputs).ctx.accounts := by
  induction outputs generalizing ctx allTags with
  | nil => simpa [outputLoop] using h
  | cons out rest ih =>
    have ha := addCoins_nonNegative ctx out.Address out.Coins h
    unfold outputLoop
    cases h1 : (addCoins ctx out.Address out.Coins).err with
    | some e => simpa [h1] using ha
    | none => simpa [h1] using ih _ _ ha

theorem inputOutputCoins_nonNegative (ctx : Context) (inputs : List Input)
    (outputs : List Output) (h : StoreNonNegative ctx.accounts) :
    StoreNonNegative (inputOutputCoins ctx inputs outputs).ctx.accounts := by
  have hi := inputLoop_nonNegative inputs ctx EmptyTags h
  unfold inputOutputCoins
  cases h1 : (inputLoop ctx EmptyTags inputs).err with
  | some e => simpa [h1] using hi
  | none => simpa [h1] using outputLoop_nonNegative outputs _ _ hi

/-- C8: non-negativity invariant.  If every balance in the account store passes
`IsNotNegative`, then so does every balance after any call of `SubtractCoins`,
`AddCoins`, `SendCoins` or `InputOutputCoins`, whatever the arguments and
whether the call succeeds or fails. -/
theorem nonNegative_invariant (ctx : Context) (h : StoreNonNegative ctx.accounts) :
    (∀ addr amt, StoreNonNegative (subtractCoins ctx addr amt).ctx.accounts) ∧
    (∀ addr amt, StoreNonNegative (addCoins ctx addr amt).ctx.accounts) ∧
    (∀ fromAddr toAddr amt, StoreNonNegative (sendCoins ctx fromAddr toAddr amt).ctx.accounts) ∧
    (∀ inputs outputs, StoreNonNegative (inputOutputCoins ctx inputs outputs).ctx.accounts) :=
  ⟨fun addr amt => subtractCoins_nonNegative ctx addr amt h,
    fun addr amt => addCoins_nonNegative ctx addr amt h,
    fun fromAddr toAddr amt => sendCoins_nonNegative ctx fromAddr toAddr amt h,
    fun inputs outputs => inputOutputCoins_nonNegative ctx inputs outputs h⟩

theorem storeA70_nonNegative : StoreNonNegative storeA70 := by
  intro a r hr
  unfold storeA70 at hr
  split_ifs at hr
  cases hr; simp [Coins.IsNotNegative]

/-- Instance of C8: on the store where `A` holds `{atom:70}`, sending the amount
`{atom:-50}` to `B` fails after the debit (which raises `A` to `{atom:120}`) has
been written, and every balance is still non-negative. -/
theorem nonNegative_invariant_witness :
    StoreNonNegative storeA70 ∧
    StoreNonNegative (sendCoins ⟨0, storeA70⟩ "A" "B" [⟨"atom", -50⟩]).ctx.accounts ∧
    (sendCoins ⟨0, storeA70⟩ "A" "B" [⟨"atom", -50⟩]).err ≠ none :=
  ⟨storeA70_nonNegative,
    (nonNegative_invariant ⟨0, storeA70⟩ storeA70_nonNegative).2.2.1 "A" "B" [⟨"atom", -50⟩],
    by
      simp +decide [sendCoins, subtractCoins, addCoins, getCoins, setCoins, GetAccount,
        SetAccount, NewAccountWithAddress, Context.ConsumeGas, Account.GetCoins,
        Account.SetCoins, storeA70, Coins.Minus, Coins.Negative, Coins.Plus, Coins.plusStep,
        Coins.IsNotNegative, Function.update]⟩

/-! ## Issuance of one asset instance -/

theorem getAssetWallet_eq (ctx : Context) (addr : Address) :
    getAssetWallet ctx addr = walletOf ctx.accounts addr := by
  unfold getAssetWallet walletOf GetAccount
  cases h : ctx.accounts addr <;> simp [h, Account.GetAssetPegWallet]

theorem setAssetWallet_eq (ctx : Context) (addr : Address) (asset : AssetPegWallet) :
    setAssetWallet ctx addr asset =
      (⟨ctx.gasConsumed, Function.update ctx.accounts addr
        (some ⟨balanceOf ctx.accounts addr, asset⟩)⟩, none) := by
  unfold setAssetWallet GetAccount SetAccount NewAccountWithAddress
    Account.SetAssetPegWallet balanceOf
  cases h : ctx.accounts addr <;> simp [h]

theorem walletOf_update_same (s : AccountStore) (addr : Address) (r : AccountRecord) :
    walletOf (Function.update s addr (some r)) addr = r.assetPegWallet := by
  simp [walletOf]

theorem walletOf_update_other (s : AccountStore) (addr b : Address) (r : Option AccountRecord)
    (h : b ≠ addr) : walletOf (Function.update s addr r) b = walletOf s b := by
  simp [walletOf, Function.update_noteq h]

/-- The issuance path taken when the issuer's wallet is `pool ++ [popped]` and
the template starts with `first`: the issuer's record is written with `pool`,
then the recipient's record is written with the wallet that was read before
that write, extended by the issued instance. -/
theorem instantiate_of_nonempty (ctx : Context) (issuerAddress toAddress : Address)
    (pool : AssetPegWallet) (popped first : AssetPeg) (rest : AssetPegWallet)
    (hw : walletOf ctx.accounts issuerAddress = pool ++ [popped]) :
    instantiateAndAssignAsset ctx issuerAddress toAddress (first :: rest) =
      some ⟨⟨ctx.gasConsumed,
          Function.update
            (Function.update ctx.accounts issuerAddress
              (some ⟨balanceOf ctx.accounts issuerAddress, pool⟩))
            toAddress
            (some ⟨balanceOf (Function.update ctx.accounts issuerAddress
                (some ⟨balanceOf ctx.accounts issuerAddress, pool⟩)) toAddress,
              walletOf ctx.accounts toAddress ++ [⟨popped.PegHash, first.Body⟩]⟩)⟩,
        [⟨popped.PegHash, first.Body⟩], [⟨"recepient", toAddress⟩], none⟩ := by
  unfold instantiateAndAssignAsset
  simp [getAssetWallet_eq, hw, setAssetWallet_eq, NewTags, Address.String]

/-- The issuance path taken when the issuer's wallet is empty. -/
theorem instantiate_of_empty (ctx : Context) (issuerAddress toAddress : Address)
    (template : AssetPegWallet) (hw : walletOf ctx.accounts issuerAddress = []) :
    instantiateAndAssignAsset ctx issuerAddress toAddress template =
      some ⟨ctx, [], [], some (Error.ErrInsufficientCoins ErrMsg.noAssetsLeft)⟩ := by
  unfold instantiateAndAssignAsset
  simp [getAssetWallet_eq, hw]

theorem storeIssuer_wallet :
    walletOf (Context.mk 0 storeIssuer).accounts "I" = [⟨"h1", "p1"⟩] ++ [⟨"h2", "p2"⟩] := by
  simp [walletOf, storeIssuer]

/-- C9, as stated, fails when issuer and recipient are the same account: from
the wallet `[P1, P2]` a self-issuance leaves `[P1, P2, T]` (`T` carrying the
identifier of `P2`), not the wallet with its last element removed. -/
theorem issuance_to_self_keeps_pool :
    ∃ r, instantiateAndAssignAsset ⟨0, storeIssuer⟩ "I" "I" [⟨"", "t"⟩] = some r ∧
      r.err = none ∧
      getAssetWallet r.ctx "I" = [⟨"h1", "p1"⟩, ⟨"h2", "p2"⟩, ⟨"h2", "t"⟩] ∧
      getAssetWallet r.ctx "I" ≠ (getAssetWallet ⟨0, storeIssuer⟩ "I").dropLast := by
  refine ⟨_, instantiate_of_nonempty ⟨0, storeIssuer⟩ "I" "I" _ _ _ [] storeIssuer_wallet,
    rfl, ?_, ?_⟩
  · simp [getAssetWallet_eq, walletOf_update_same, walletOf, storeIssuer]
  · simp [getAssetWallet_eq, walletOf_update_same, walletOf, storeIssuer]

/-- C9, amended: for distinct issuer and recipient, a non-empty issuer wallet and
a non-empty template, issuance succeeds; the issuer's wallet becomes its
previous wallet without the last element (size -1), the recipient's wallet
becomes its previous wallet with one element appended (size +1), that element
being the template's first instance with its `PegHash` replaced by the one of
the instance popped from the issuer, and the returned wallet holds exactly that
element. -/
theorem issuance_effect (ctx : Context) (issuerAddress toAddress : Address)
    (template : AssetPegWallet) (hne : issuerAddress ≠ toAddress)
    (hw : getAssetWallet ctx issuerAddress ≠ []) (ht : template ≠ []) :
    ∃ (r : AssetResult) (popped first : AssetPeg),
      instantiateAndAssignAsset ctx issuerAddress toAddress template = some r ∧
      r.err = none ∧
      (getAssetWallet ctx issuerAddress).getLast? = some popped ∧
      template.head? = some first ∧
      getAssetWallet r.ctx issuerAddress = (getAssetWallet ctx issuerAddress).dropLast ∧
      (getAssetWallet r.ctx issuerAddress).length + 1 =
        (getAssetWallet ctx issuerAddress).length ∧
      getAssetWallet r.ctx toAddress =
        getAssetWallet ctx toAddress ++ [{ first with PegHash := popped.PegHash }] ∧
      (getAssetWallet r.ctx toAddress).length = (getAssetWallet ctx toAddress).length + 1 ∧
      r.wallet = [{ first with PegHash := popped.PegHash }] := by
  rw [getAssetWallet_eq] at hw
  obtain ⟨first, rest, rfl⟩ := List.exists_cons_of_ne_nil ht
  have hsplit := (List.dropLast_append_getLast hw).symm
  refine ⟨_, (walletOf ctx.accounts issuerAddress).getLast hw, first,
    instantiate_of_nonempty ctx issuerAddress toAddress _ _ first rest hsplit, rfl, ?_, rfl,
    ?_, ?_, ?_, ?_, rfl⟩
  · rw [getAssetWallet_eq]; exact List.getLast?_eq_getLast _ hw
  · simp only [getAssetWallet_eq]
    rw [walletOf_update_other _ _ _ _ hne, walletOf_update_same]
  · simp only [getAssetWallet_eq]
    rw [walletOf_update_other _ _ _ _ hne, walletOf_update_same]
    have := congrArg List.length hsplit
    simp at this
    simp
    omega
  · simp only [getAssetWallet_eq]
    rw [walletOf_update_same]
  · simp only [getAssetWallet_eq]
    rw [walletOf_update_same]
    simp

/-- Scenario 5 as an instance of the amended C9: from the issuer wallet
`[P1, P2]`, issuance to `R` succeeds. -/
theorem issuance_effect_witness :
    ("I" : Address) ≠ "R" ∧ getAssetWallet ⟨0, storeIssuer⟩ "I" ≠ [] ∧
    ([⟨"", "t"⟩] : AssetPegWallet) ≠ [] ∧
    ∃ (r : AssetResult) (popped first : AssetPeg),
      instantiateAndAssignAsset ⟨0, storeIssuer⟩ "I" "R" [⟨"", "t"⟩] = some r ∧
      r.err = none ∧
      (getAssetWallet ⟨0, storeIssuer⟩ "I").getLast? = some popped ∧
      List.head? ([⟨"", "t"⟩] : AssetPegWallet) = some first ∧
      getAssetWallet r.ctx "I" = (getAssetWallet ⟨0, storeIssuer⟩ "I").dropLast ∧
      (getAssetWallet r.ctx "I").length + 1 = (getAssetWallet ⟨0, storeIssuer⟩ "I").length ∧
      getAssetWallet r.ctx "R" =
        getAssetWallet ⟨0, storeIssuer⟩ "R" ++ [{ first with PegHash := popped.PegHash }] ∧
      (getAssetWallet r.ctx "R").length = (getAssetWallet ⟨0, storeIssuer⟩ "R").length + 1 ∧
      r.wallet = [{ first with PegHash := popped.PegHash }] :=
  ⟨by decide, by simp [getAssetWallet_eq, walletOf, storeIssuer], by simp,
    issuance_effect ⟨0, storeIssuer⟩ "I" "R" [⟨"", "t"⟩] (by decide)
      (by simp [getAssetWallet_eq, walletOf, storeIssuer]) (by simp)⟩

/-- C10 on the code: a successful issuance from `I` to `R` returns the single tag
`("recepient", R)`; the tag `("issuer", I)` built by `AppendTag` is not in the
returned tag set. -/
theorem issuance_tags_scenario5 :
    ∃ r, instantiateAndAssignAsset ⟨0, storeIssuer⟩ "I" "R" [⟨"", "t"⟩] = some r ∧
      r.err = none ∧
      r.tags = [⟨"recepient", "R"⟩] ∧
      r.tags ≠ [⟨"recepient", "R"⟩, ⟨"issuer", "I"⟩] := by
  refine ⟨_, instantiate_of_nonempty ⟨0, storeIssuer⟩ "I" "R" _ _ _ [] storeIssuer_wallet,
    rfl, rfl, ?_⟩
  simp

/-- The issuance path taken when the issuer's wallet is not empty and the
template is: the read of `assetPegWallet[0]` is out of range. -/
theorem instantiate_of_nonempty_nil (ctx : Context) (issuerAddress toAddress : Address)
    (pool : AssetPegWallet) (popped : AssetPeg)
    (hw : walletOf ctx.accounts issuerAddress = pool ++ [popped]) :
    instantiateAndAssignAsset ctx issuerAddress toAddress [] = none := by
  unfold instantiateAndAssignAsset
  simp [getAssetWallet_eq, hw]

/-- C11: when the issuer's account does not exist or its wallet is empty,
issuance returns the error built with the text "no assets left", returns no
tags, and hands back the context it was given: no wallet is changed and no
account is created. -/
theorem issuance_pool_exhausted (ctx : Context) (issuerAddress toAddress : Address)
    (template : AssetPegWallet)
    (h : ctx.accounts issuerAddress = none ∨ getAssetWallet ctx issuerAddress = []) :
    ∃ r, instantiateAndAssignAsset ctx issuerAddress toAddress template = some r ∧
      r.err = some (Error.ErrInsufficientCoins ErrMsg.noAssetsLeft) ∧
      r.tags = [] ∧
      r.ctx = ctx ∧
      r.ctx.accounts = ctx.accounts := by
  have hw : walletOf ctx.accounts issuerAddress = [] := by
    rcases h with h | h
    · simp [walletOf, h]
    · rw [← getAssetWallet_eq]; exact h
  exact ⟨_, instantiate_of_empty ctx issuerAddress toAddress template hw, rfl, rfl, rfl, rfl⟩

/-- Scenario 6 as an instance of C11: the account `X` does not exist in the
store, so issuing from `X` fails and nothing changes. -/
theorem issuance_pool_exhausted_witness :
    ((Context.mk 0 storeIssuer).accounts "X" = none ∨
      getAssetWallet ⟨0, storeIssuer⟩ "X" = []) ∧
    ∃ r, instantiateAndAssignAsset ⟨0, storeIssuer⟩ "X" "R" [⟨"", "t"⟩] = some r ∧
      r.err = some (Error.ErrInsufficientCoins ErrMsg.noAssetsLeft) ∧
      r.tags = [] ∧
      r.ctx = ⟨0, storeIssuer⟩ ∧
      r.ctx.accounts = storeIssuer :=
  ⟨Or.inl (by simp +decide [storeIssuer]),
    issuance_pool_exhausted ⟨0, storeIssuer⟩ "X" "R" [⟨"", "t"⟩]
      (Or.inl (by simp +decide [storeIssuer]))⟩

/-- C20: index safety of issuance.  The function runs into an out-of-range
index exactly when the issuer's wallet is not empty and the template is empty;
so with a non-empty template or an empty issuer wallet it returns a result, and
the read of the issuer wallet's last element never is out of range. -/
theorem issuance_index_safety (ctx : Context) (issuerAddress toAddress : Address)
    (template : AssetPegWallet) :
    (instantiateAndAssignAsset ctx issuerAddress toAddress template = none ↔
      getAssetWallet ctx issuerAddress ≠ [] ∧ template = []) ∧
    ((template ≠ [] ∨ getAssetWallet ctx issuerAddress = []) ↔
      (instantiateAndAssignAsset ctx issuerAddress toAddress template).isSome = true) := by
  have key : instantiateAndAssignAsset ctx issuerAddress toAddress template = none ↔
      getAssetWallet ctx issuerAddress ≠ [] ∧ template = [] := by
    rw [getAssetWallet_eq]
    by_cases hw : walletOf ctx.accounts issuerAddress = []
    · rw [instantiate_of_empty ctx issuerAddress toAddress template hw]
      simp [hw]
    · have hsplit := (List.dropLast_append_getLast hw).symm
      cases template with
      | nil =>
        rw [instantiate_of_nonempty_nil ctx issuerAddress toAddress _ _ hsplit]
        simp [hw]
      | cons first rest =>
        rw [instantiate_of_nonempty ctx issuerAddress toAddress _ _ first rest hsplit]
        simp
  refine ⟨key, ?_⟩
  rw [← Option.ne_none_iff_isSome]
  constructor
  · rintro (h | h) hnone
    · exact h (key.1 hnone).2
    · exact (key.1 hnone).1 h
  · intro hsome
    have h : ¬ (getAssetWallet ctx issuerAddress ≠ [] ∧ template = []) :=
      fun hc => hsome (key.2 hc)
    by_cases ht : template = []
    · right
      by_contra hw
      exact h ⟨hw, ht⟩
    · exact Or.inl ht

/-! ## GetCoins and SetCoins -/

/-- C16: `GetCoins(addr)` returns the balance stored for `addr`, the empty value
when there is no account, leaves the account store as it is (no account is
created), and the full, send-only and view-only keepers all return what
`getCoins` returns. -/
theorem getCoins_reads_balance (ctx : Context) (addr : Address) :
    ((getCoins ctx addr).2 =
      match ctx.accounts addr with
      | none => []
      | some r => r.coins) ∧
    (getCoins ctx addr).1.accounts = ctx.accounts ∧
    (∀ k : Keeper, k.GetCoins ctx addr = getCoins ctx addr) ∧
    (∀ k : SendKeeper, k.GetCoins ctx addr = getCoins ctx addr) ∧
    (∀ k : ViewKeeper, k.GetCoins ctx addr = getCoins ctx addr) :=
  ⟨getCoins_coins ctx addr, getCoins_accounts ctx addr, fun _ => rfl, fun _ => rfl,
    fun _ => rfl⟩

/-- C17: `SetCoins(addr, amt)` returns no error for any `amt`; afterwards
`GetCoins(addr)` is `amt`, the account exists and every other account is as
before; a second `SetCoins(addr, amt)` leaves the account store as the first
one left it. -/
theorem setCoins_overwrites (ctx : Context) (addr : Address) (amt : Coins) :
    (setCoins ctx addr amt).2 = none ∧
    (getCoins (setCoins ctx addr amt).1 addr).2 = amt ∧
    ((setCoins ctx addr amt).1.accounts addr).isSome = true ∧
    (∀ b, b ≠ addr → (setCoins ctx addr amt).1.accounts b = ctx.accounts b) ∧
    (setCoins (setCoins ctx addr amt).1 addr amt).1.accounts =
      (setCoins ctx addr amt).1.accounts := by
  refine ⟨rfl, ?_, ?_, ?_, ?_⟩
  · rw [getCoins_coins, setCoins_accounts, balanceOf_update_same]
  · simp [setCoins_accounts]
  · intro b hb
    rw [setCoins_accounts, Function.update_noteq hb]
  · rw [setCoins_accounts, setCoins_accounts, walletOf_update_same]
    simp

/-- Instance of C17 with an amount that has a negative entry: `SetCoins(B,
{atom:-5})` on the store where only `A` exists. -/
theorem setCoins_overwrites_witness :
    (setCoins ⟨0, storeA70⟩ "B" [⟨"atom", -5⟩]).2 = none ∧
    (getCoins (setCoins ⟨0, storeA70⟩ "B" [⟨"atom", -5⟩]).1 "B").2 = [⟨"atom", -5⟩] ∧
    (setCoins ⟨0, storeA70⟩ "B" [⟨"atom", -5⟩]).1.accounts "A" = storeA70 "A" :=
  ⟨(setCoins_overwrites ⟨0, storeA70⟩ "B" [⟨"atom", -5⟩]).1,
    (setCoins_overwrites ⟨0, storeA70⟩ "B" [⟨"atom", -5⟩]).2.1,
    (setCoins_overwrites ⟨0, storeA70⟩ "B" [⟨"atom", -5⟩]).2.2.2.1 "A" (by decide)⟩

/-! ## Gas consumed by the coin ledger -/

theorem consumeGas_gas (ctx : Context) (amount : Gas) :
    (ctx.ConsumeGas amount).gasConsumed = ctx.gasConsumed + amount := rfl

theorem setCoins_gas (ctx : Context) (addr : Address) (amt : Coins) :
    (setCoins ctx addr amt).1.gasConsumed = ctx.gasConsumed + costSetCoins := by
  unfold setCoins GetAccount Context.ConsumeGas SetAccount
  cases h : ctx.accounts addr <;> simp [h]

theorem hasCoins_gas (ctx : Context) (addr : Address) (amt : Coins) :
    (hasCoins ctx addr amt).1.gasConsumed = ctx.gasConsumed + costHasCoins + costGetCoins := by
  simp [hasCoins, getCoins_gas, consumeGas_gas]

theorem subtractCoins_gas (ctx : Context) (addr : Address) (amt : Coins) :
    (subtractCoins ctx addr amt).ctx.gasConsumed =
      ctx.gasConsumed + costSubtractCoins + costGetCoins +
        (if (subtractCoins ctx addr amt).err = none then costSetCoins else 0) := by
  have hc : (getCoins (ctx.ConsumeGas costSubtractCoins) addr).2 = balanceOf ctx.accounts addr :=
    getCoins_coins _ _
  cases h : Coins.IsNotNegative (Coins.Minus (balanceOf ctx.accounts addr) amt)
  · rw [(subtractCoins_of_neg ctx addr amt h).1]
    simp [subtractCoins, hc, h, getCoins_gas, consumeGas_gas]
  · rw [(subtractCoins_of_nonneg ctx addr amt h).1]
    simp [subtractCoins, hc, h, getCoins_gas, setCoins_gas, consumeGas_gas]

theorem addCoins_gas (ctx : Context) (addr : Address) (amt : Coins) :
    (addCoins ctx addr amt).ctx.gasConsumed =
      ctx.gasConsumed + costAddCoins + costGetCoins +
        (if (addCoins ctx addr amt).err = none then costSetCoins else 0) := by
  have hc : (getCoins (ctx.ConsumeGas costAddCoins) addr).2 = balanceOf ctx.accounts addr :=
    getCoins_coins _ _
  cases h : Coins.IsNotNegative (Coins.Plus (balanceOf ctx.accounts addr) amt)
  · rw [(addCoins_of_neg ctx addr amt h).1]
    simp [addCoins, hc, h, getCoins_gas, consumeGas_gas]
  · rw [(addCoins_of_nonneg ctx addr amt h).1]
    simp [addCoins, hc, h, getCoins_gas, setCoins_gas, consumeGas_gas]

/-- C18, as stated, fails: on a fresh meter one `HasCoins` consumes 20, not 10,
a failing `SubtractCoins` consumes 20 and a successful `AddCoins` 120, not 10. -/
theorem gas_not_single_cost :
    (hasCoins ⟨0, emptyStore⟩ "A" []).1.gasConsumed = 20 ∧
    (hasCoins ⟨0, emptyStore⟩ "A" []).1.gasConsumed ≠ 0 + costHasCoins ∧
    (subtractCoins ⟨0, emptyStore⟩ "A" [⟨"atom", 1⟩]).ctx.gasConsumed = 20 ∧
    (subtractCoins ⟨0, emptyStore⟩ "A" [⟨"atom", 1⟩]).ctx.gasConsumed ≠ 0 + costSubtractCoins ∧
    (addCoins ⟨0, emptyStore⟩ "A" [⟨"atom", 1⟩]).ctx.gasConsumed = 120 ∧
    (addCoins ⟨0, emptyStore⟩ "A" [⟨"atom", 1⟩]).ctx.gasConsumed ≠ 0 + costAddCoins := by
  have h1 : (hasCoins ⟨0, emptyStore⟩ "A" []).1.gasConsumed = 20 := by
    rw [hasCoins_gas]; rfl
  have h2 : (subtractCoins ⟨0, emptyStore⟩ "A" [⟨"atom", 1⟩]).ctx.gasConsumed = 20 := by
    rw [subtractCoins_gas, (subtractCoins_of_neg _ _ _ _).1]
    · rfl
    · simp [balanceOf, emptyStore, Coins.Minus, Coins.Negative, Coins.Plus, Coins.IsNotNegative]
  have h3 : (addCoins ⟨0, emptyStore⟩ "A" [⟨"atom", 1⟩]).ctx.gasConsumed = 120 := by
    rw [addCoins_gas, (addCoins_of_nonneg _ _ _ _).1]
    · rfl
    · simp [balanceOf, emptyStore, Coins.Plus, Coins.IsNotNegative]
  refine ⟨h1, ?_, h2, ?_, h3, ?_⟩
  · rw [h1]; decide
  · rw [h2]; decide
  · rw [h3]; decide

/-- C18, amended: one call increases the gas consumed by the operation's own
fixed cost plus the cost of the operations it calls: `GetCoins` by 10,
`SetCoins` by 100, `HasCoins` by 20 (10 and the 10 of `GetCoins`),
`SubtractCoins` and `AddCoins` by 20 when they fail (10 and the 10 of
`GetCoins`) and by 120 when they succeed (also the 100 of `SetCoins`). -/
theorem gas_costs (ctx : Context) (addr : Address) (amt : Coins) :
    (getCoins ctx addr).1.gasConsumed = ctx.gasConsumed + 10 ∧
    (setCoins ctx addr amt).1.gasConsumed = ctx.gasConsumed + 100 ∧
    (hasCoins ctx addr amt).1.gasConsumed = ctx.gasConsumed + 20 ∧
    (subtractCoins ctx addr amt).ctx.gasConsumed =
      ctx.gasConsumed + (if (subtractCoins ctx addr amt).err = none then 120 else 20) ∧
    (addCoins ctx addr amt).ctx.gasConsumed =
      ctx.gasConsumed + (if (addCoins ctx addr amt).err = none then 120 else 20) := by
  refine ⟨getCoins_gas ctx addr, setCoins_gas ctx addr amt, ?_, ?_, ?_⟩
  · rw [hasCoins_gas]; simp [costHasCoins, costGetCoins, Nat.add_assoc]
  · rw [subtractCoins_gas]
    split_ifs <;> simp [costSubtractCoins, costGetCoins, costSetCoins, Nat.add_assoc]
  · rw [addCoins_gas]
    split_ifs <;> simp [costAddCoins, costGetCoins, costSetCoins, Nat.add_assoc]

/-! ## SendCoins: failure of the credit -/

/-- C13: when `SubtractCoins(from, amt)` succeeds and the `AddCoins(to, amt)` that
follows fails, `SendCoins(from, to, amt)` returns the error of `AddCoins` and no
tags, and the account store is the one `SubtractCoins(from, amt)` produced: the
debit stays. -/
theorem sendCoins_credit_fails (ctx : Context) (fromAddr toAddr : Address) (amt : Coins)
    (e : Error) (hs : (subtractCoins ctx fromAddr amt).err = none)
    (ha : (addCoins (subtractCoins ctx fromAddr amt).ctx toAddr amt).err = some e) :
    (sendCoins ctx fromAddr toAddr amt).err = some e ∧
    (sendCoins ctx fromAddr toAddr amt).tags = [] ∧
    (sendCoins ctx fromAddr toAddr amt).ctx.accounts =
      (subtractCoins ctx fromAddr amt).ctx.accounts := by
  have hneg : Coins.IsNotNegative (Coins.Plus
      (balanceOf (subtractCoins ctx fromAddr amt).ctx.accounts toAddr) amt) = false := by
    cases hc : Coins.IsNotNegative (Coins.Plus
        (balanceOf (subtractCoins ctx fromAddr amt).ctx.accounts toAddr) amt)
    · rfl
    · rw [(addCoins_of_nonneg _ toAddr amt hc).1] at ha
      exact absurd ha (by simp)
  have hacc := (addCoins_of_neg (subtractCoins ctx fromAddr amt).ctx toAddr amt hneg).2.1
  simp [sendCoins, hs, ha, hacc]

/-- Instance of C13: from `A` holding `{atom:70}`, sending `{atom:-50}` to the
absent account `B` passes the debit check (`A` goes to `{atom:120}`) and fails
at the credit; `A` keeps `{atom:120}`. -/
theorem sendCoins_credit_fails_witness :
    (subtractCoins ⟨0, storeA70⟩ "A" [⟨"atom", -50⟩]).err = none ∧
    (sendCoins ⟨0, storeA70⟩ "A" "B" [⟨"atom", -50⟩]).err =
      some (Error.ErrInsufficientCoins (ErrMsg.lessThan [] [⟨"atom", -50⟩])) ∧
    (sendCoins ⟨0, storeA70⟩ "A" "B" [⟨"atom", -50⟩]).tags = [] ∧
    (sendCoins ⟨0, storeA70⟩ "A" "B" [⟨"atom", -50⟩]).ctx.accounts =
      (subtractCoins ⟨0, storeA70⟩ "A" [⟨"atom", -50⟩]).ctx.accounts ∧
    (getCoins (sendCoins ⟨0, storeA70⟩ "A" "B" [⟨"atom", -50⟩]).ctx "A").2 =
      [⟨"atom", 120⟩] := by
  have hmin : Coins.Minus (balanceOf (Context.mk 0 storeA70).accounts "A") [⟨"atom", -50⟩] =
      [⟨"atom", 120⟩] := by
    simp [balanceOf, storeA70, Coins.Minus, Coins.Negative, Coins.Plus, Coins.plusStep]
  have hnn : Coins.IsNotNegative
      (Coins.Minus (balanceOf (Context.mk 0 storeA70).accounts "A") [⟨"atom", -50⟩]) = true := by
    rw [hmin]; simp [Coins.IsNotNegative]
  obtain ⟨hs, hacc, _, _⟩ := subtractCoins_of_nonneg ⟨0, storeA70⟩ "A" [⟨"atom", -50⟩] hnn
  have hbalB : balanceOf (subtractCoins ⟨0, storeA70⟩ "A" [⟨"atom", -50⟩]).ctx.accounts "B" =
      [] := by
    rw [hacc, balanceOf_update_other _ _ _ _ (by decide)]
    simp +decide [balanceOf, storeA70]
  have hneg : Coins.IsNotNegative (Coins.Plus
      (balanceOf (subtractCoins ⟨0, storeA70⟩ "A" [⟨"atom", -50⟩]).ctx.accounts "B")
      [⟨"atom", -50⟩]) = false := by
    rw [hbalB]; simp [Coins.Plus, Coins.IsNotNegative]
  have ha := (addCoins_of_neg (subtractCoins ⟨0, storeA70⟩ "A" [⟨"atom", -50⟩]).ctx "B"
    [⟨"atom", -50⟩] hneg).1
  rw [hbalB] at ha
  have h := sendCoins_credit_fails ⟨0, storeA70⟩ "A" "B" [⟨"atom", -50⟩] _ hs ha
  refine ⟨hs, h.1, h.2.1, h.2.2, ?_⟩
  rw [getCoins_coins, h.2.2, hacc, balanceOf_update_same, hmin]

/-! ## InputOutputCoins step by step -/

theorem subtractCoins_tags_of_ok (ctx : Context) (addr : Address) (amt : Coins)
    (h : (subtractCoins ctx addr amt).err = none) :
    (subtractCoins ctx addr amt).tags = [⟨"sender", addr⟩] := by
  cases hc : Coins.IsNotNegative (Coins.Minus (balanceOf ctx.accounts addr) amt)
  · rw [(subtractCoins_of_neg ctx addr amt hc).1] at h
    exact absurd h (by simp)
  · exact (subtractCoins_of_nonneg ctx addr amt hc).2.2.1

theorem subtractCoins_accounts_of_err (ctx : Context) (addr : Address) (amt : Coins) (e : Error)
    (h : (subtractCoins ctx addr amt).err = some e) :
    (subtractCoins ctx addr amt).ctx.accounts = ctx.accounts := by
  cases hc : Coins.IsNotNegative (Coins.Minus (balanceOf ctx.accounts addr) amt)
  · exact (subtractCoins_of_neg ctx addr amt hc).2.1
  · rw [(subtractCoins_of_nonneg ctx addr amt hc).1] at h
    exact absurd h (by simp)

theorem addCoins_tags_of_ok (ctx : Context) (addr : Address) (amt : Coins)
    (h : (addCoins ctx addr amt).err = none) :
    (addCoins ctx addr amt).tags = [⟨"recipient", addr⟩] := by
  cases hc : Coins.IsNotNegative (Coins.Plus (balanceOf ctx.accounts addr) amt)
  · rw [(addCoins_of_neg ctx addr amt hc).1] at h
    exact absurd h (by simp)
  · exact (addCoins_of_nonneg ctx addr amt hc).2.2.1

theorem addCoins_accounts_of_err (ctx : Context) (addr : Address) (amt : Coins) (e : Error)
    (h : (addCoins ctx addr amt).err = some e) :
    (addCoins ctx addr amt).ctx.accounts = ctx.accounts := by
  cases hc : Coins.IsNotNegative (Coins.Plus (balanceOf ctx.accounts addr) amt)
  · exact (addCoins_of_neg ctx addr amt hc).2.1
  · rw [(addCoins_of_nonneg ctx addr amt hc).1] at h
    exact absurd h (by simp)

theorem inputLoop_of_ok (inputs : List Input) (ctx : Context) (allTags : Tags)
    (h : subtractsOk ctx inputs) :
    inputLoop ctx allTags inputs =
      ⟨applySubtracts ctx inputs, allTags ++ subtractsTags ctx inputs, none⟩ := by
  induction inputs generalizing ctx allTags with
  | nil => simp [inputLoop, applySubtracts, subtractsTags]
  | cons inp rest ih =>
    obtain ⟨h1, h2⟩ := h
    rw [inputLoop]
    simp only [h1]
    rw [ih _ _ h2]
    simp [applySubtracts, subtractsTags, Tags.AppendTags]

theorem subtractsOk_of_inputLoop (inputs : List Input) (ctx : Context) (allTags : Tags)
    (h : (inputLoop ctx allTags inputs).err = none) : subtractsOk ctx inputs := by
  induction inputs generalizing ctx allTags with
  | nil => trivial
  | cons inp rest ih =>
    rw [inputLoop] at h
    cases h1 : (subtractCoins ctx inp.Address inp.Coins).err with
    | some e => simp [h1] at h
    | none =>
      simp only [h1] at h
      exact ⟨h1, ih _ _ h⟩

theorem subtractsTags_of_ok (inputs : List Input) (ctx : Context) (h : subtractsOk ctx inputs) :
    subtractsTags ctx inputs = inputs.map fun inp => (⟨"sender", inp.Address⟩ : Tag) := by
  induction inputs generalizing ctx with
  | nil => rfl
  | cons inp rest ih =>
    obtain ⟨h1, h2⟩ := h
    simp [subtractsTags, subtractCoins_tags_of_ok ctx _ _ h1, ih _ h2]

theorem inputLoop_of_failure (pre : List Input) (inp : Input) (post : List Input)
    (ctx : Context) (allTags : Tags) (e : Error) (h : subtractsOk ctx pre)
    (he : (subtractCoins (applySubtracts ctx pre) inp.Address inp.Coins).err = some e) :
    inputLoop ctx allTags (pre ++ inp :: post) =
      ⟨(subtractCoins (applySubtracts ctx pre) inp.Address inp.Coins).ctx, [], some e⟩ := by
  induction pre generalizing ctx allTags with
  | nil =>
    simp only [applySubtracts] at he
    simp [inputLoop, he, applySubtracts]
  | cons p rest ih =>
    obtain ⟨h1, h2⟩ := h
    simp only [applySubtracts] at he
    have hstep : inputLoop ctx allTags (p :: (rest ++ inp :: post)) =
        inputLoop (subtractCoins ctx p.Address p.Coins).ctx
          (Tags.AppendTags allTags (subtractCoins ctx p.Address p.Coins).tags)
          (rest ++ inp :: post) := by
      rw [inputLoop]; simp only [h1]
    rw [List.cons_append, hstep, ih _ _ h2 he]
    simp [applySubtracts]

theorem inputLoop_failure_split (inputs : List Input) (ctx : Context) (allTags : Tags)
    (e : Error) (h : (inputLoop ctx allTags inputs).err = some e) :
    ∃ pre inp post, inputs = pre ++ inp :: post ∧ subtractsOk ctx pre ∧
      (subtractCoins (applySubtracts ctx pre) inp.Address inp.Coins).err = some e := by
  induction inputs generalizing ctx allTags with
  | nil => simp [inputLoop] at h
  | cons inp rest ih =>
    rw [inputLoop] at h
    cases h1 : (subtractCoins ctx inp.Address inp.Coins).err with
    | some e1 =>
      simp only [h1] at h
      cases h
      exact ⟨[], inp, rest, rfl, trivial, h1⟩
    | none =>
      simp only [h1] at h
      obtain ⟨pre, i, post, hsplit, hok, herr⟩ := ih _ _ h
      exact ⟨inp :: pre, i, post, by rw [hsplit]; rfl, ⟨h1, hok⟩, herr⟩

theorem outputLoop_of_ok (outputs : List Output) (ctx : Context) (allTags : Tags)
    (h : addsOk ctx outputs) :
    outputLoop ctx allTags outputs =
      ⟨applyAdds ctx outputs, allTags ++ addsTags ctx outputs, none⟩ := by
  induction outputs generalizing ctx allTags with
  | nil => simp [outputLoop, applyAdds, addsTags]
  | cons out rest ih =>
    obtain ⟨h1, h2⟩ := h
    rw [outputLoop]
    simp only [h1]
    rw [ih _ _ h2]
    simp [applyAdds, addsTags, Tags.AppendTags]

theorem addsOk_of_outputLoop (outputs : List Output) (ctx : Context) (allTags : Tags)
    (h : (outputLoop ctx allTags outputs).err = none) : addsOk ctx outputs := by
  induction outputs generalizing ctx allTags with
  | nil => trivial
  | cons out rest ih =>
    rw [outputLoop] at h
    cases h1 : (addCoins ctx out.Address out.Coins).err with
    | some e => simp [h1] at h
    | none =>
      simp only [h1] at h
      exact ⟨h1, ih _ _ h⟩

theorem addsTags_of_ok (outputs : List Output) (ctx : Context) (h : addsOk ctx outputs) :
    addsTags ctx outputs = outputs.map fun out => (⟨"recipient", out.Address⟩ : Tag) := by
  induction outputs generalizing ctx with
  | nil => rfl
  | cons out rest ih =>
    obtain ⟨h1, h2⟩ := h
    simp [addsTags, addCoins_tags_of_ok ctx _ _ h1, ih _ h2]

theorem outputLoop_of_failure (pre : List Output) (out : Output) (post : List Output)
    (ctx : Context) (allTags : Tags) (e : Error) (h : addsOk ctx pre)
    (he : (addCoins (applyAdds ctx pre) out.Address out.Coins).err = some e) :
    outputLoop ctx allTags (pre ++ out :: post) =
      ⟨(addCoins (applyAdds ctx pre) out.Address out.Coins).ctx, [], some e⟩ := by
  induction pre generalizing ctx allTags with
  | nil =>
    simp only [applyAdds] at he
    simp [outputLoop, he, applyAdds]
  | cons p rest ih =>
    obtain ⟨h1, h2⟩ := h
    simp only [applyAdds] at he
    have hstep : outputLoop ctx allTags (p :: (rest ++ out :: post)) =
        outputLoop (addCoins ctx p.Address p.Coins).ctx
          (Tags.AppendTags allTags (addCoins ctx p.Address p.Coins).tags)
          (rest ++ out :: post) := by
      rw [outputLoop]; simp only [h1]
    rw [List.cons_append, hstep, ih _ _ h2 he]
    simp [applyAdds]

theorem outputLoop_failure_split (outputs : List Output) (ctx : Context) (allTags : Tags)
    (e : Error) (h : (outputLoop ctx allTags outputs).err = some e) :
    ∃ pre out post, outputs = pre ++ out :: post ∧ addsOk ctx pre ∧
      (addCoins (applyAdds ctx pre) out.Address out.Coins).err = some e := by
  induction outputs generalizing ctx allTags with
  | nil => simp [outputLoop] at h
  | cons out rest ih =>
    rw [outputLoop] at h
    cases h1 : (addCoins ctx out.Address out.Coins).err with
    | some e1 =>
      simp only [h1] at h
      cases h
      exact ⟨[], out, rest, rfl, trivial, h1⟩
    | none =>
      simp only [h1] at h
      obtain ⟨pre, o, post, hsplit, hok, herr⟩ := ih _ _ h
      exact ⟨out :: pre, o, post, by rw [hsplit]; rfl, ⟨h1, hok⟩, herr⟩

/-- C12: if `InputOutputCoins(inputs, outputs)` succeeds, then every step
succeeded, the account store is the one obtained by applying `SubtractCoins` to
each input in list order and then `AddCoins` to each output in list order, and
the tags are the tags of those steps in call order: one `("sender", address)`
per input followed by one `("recipient", address)` per output, so
`len(inputs) + len(outputs)` tags. -/
theorem inputOutputCoins_success (ctx : Context) (inputs : List Input) (outputs : List Output)
    (h : (inputOutputCoins ctx inputs outputs).err = none) :
    subtractsOk ctx inputs ∧
    addsOk (applySubtracts ctx inputs) outputs ∧
    (inputOutputCoins ctx inputs outputs).ctx.accounts =
      (applyAdds (applySubtracts ctx inputs) outputs).accounts ∧
    (inputOutputCoins ctx inputs outputs).tags =
      subtractsTags ctx inputs ++ addsTags (applySubtracts ctx inputs) outputs ∧
    (inputOutputCoins ctx inputs outputs).tags =
      (inputs.map fun inp => (⟨"sender", inp.Address⟩ : Tag)) ++
        (outputs.map fun out => (⟨"recipient", out.Address⟩ : Tag)) ∧
    (inputOutputCoins ctx inputs outputs).tags.length = inputs.length + outputs.length := by
  unfold inputOutputCoins at h ⊢
  cases hi : (inputLoop ctx EmptyTags inputs).err with
  | some e => simp [hi] at h
  | none =>
    have hsub := subtractsOk_of_inputLoop inputs ctx EmptyTags hi
    have hin := inputLoop_of_ok inputs ctx EmptyTags hsub
    simp only [hi] at h ⊢
    rw [hin] at h ⊢
    have hadd := addsOk_of_outputLoop outputs _ _ h
    rw [outputLoop_of_ok outputs _ _ hadd]
    have ht1 := subtractsTags_of_ok inputs ctx hsub
    have ht2 := addsTags_of_ok outputs _ hadd
    refine ⟨hsub, hadd, rfl, ?_, ?_, ?_⟩
    · simp [EmptyTags]
    · simp [EmptyTags, ht1, ht2]
    · simp [EmptyTags, ht1, ht2]

/-- Scenario 4 evaluated: both debits and the credit pass their checks. -/
theorem inputOutputCoins_scenario4 :
    (inputOutputCoins ⟨0, storeAC⟩ [⟨"A", [⟨"atom", 50⟩]⟩, ⟨"C", [⟨"atom", 30⟩]⟩]
      [⟨"B", [⟨"atom", 80⟩]⟩]).err = none := by
  simp +decide [inputOutputCoins, inputLoop, outputLoop, subtractCoins, addCoins, getCoins,
    setCoins, GetAccount, SetAccount, NewAccountWithAddress, Context.ConsumeGas,
    Account.GetCoins, Account.SetCoins, storeAC, Coins.Minus, Coins.Negative, Coins.Plus,
    Coins.plusStep, Coins.IsNotNegative, Function.update]

/-- Scenario 4 as an instance of C12: three tags in call order. -/
theorem inputOutputCoins_success_witness :
    (inputOutputCoins ⟨0, storeAC⟩ [⟨"A", [⟨"atom", 50⟩]⟩, ⟨"C", [⟨"atom", 30⟩]⟩]
      [⟨"B", [⟨"atom", 80⟩]⟩]).err = none ∧
    (inputOutputCoins ⟨0, storeAC⟩ [⟨"A", [⟨"atom", 50⟩]⟩, ⟨"C", [⟨"atom", 30⟩]⟩]
      [⟨"B", [⟨"atom", 80⟩]⟩]).tags =
      [⟨"sender", "A"⟩, ⟨"sender", "C"⟩, ⟨"recipient", "B"⟩] :=
  ⟨inputOutputCoins_scenario4,
    (inputOutputCoins_success ⟨0, storeAC⟩ [⟨"A", [⟨"atom", 50⟩]⟩, ⟨"C", [⟨"atom", 30⟩]⟩]
      [⟨"B", [⟨"atom", 80⟩]⟩] inputOutputCoins_scenario4).2.2.2.2.1⟩

/-- C14: when a step of `InputOutputCoins` fails, the call returns the error of
the first failing step (inputs first, then outputs) and no tags, stops there
(the context is the one that step returned), and the account store is the one
the preceding successful steps produced.  Conversely an error returned by
`InputOutputCoins` is the error of such a first failing step. -/
theorem inputOutputCoins_first_failure (ctx : Context) (e : Error) :
    (∀ (pre : List Input) (inp : Input) (post : List Input) (outputs : List Output),
      subtractsOk ctx pre →
      (subtractCoins (applySubtracts ctx pre) inp.Address inp.Coins).err = some e →
      (inputOutputCoins ctx (pre ++ inp :: post) outputs).err = some e ∧
      (inputOutputCoins ctx (pre ++ inp :: post) outputs).tags = [] ∧
      (inputOutputCoins ctx (pre ++ inp :: post) outputs).ctx =
        (subtractCoins (applySubtracts ctx pre) inp.Address inp.Coins).ctx ∧
      (inputOutputCoins ctx (pre ++ inp :: post) outputs).ctx.accounts =
        (applySubtracts ctx pre).accounts) ∧
    (∀ (inputs : List Input) (pre : List Output) (out : Output) (post : List Output),
      subtractsOk ctx inputs →
      addsOk (applySubtracts ctx inputs) pre →
      (addCoins (applyAdds (applySubtracts ctx inputs) pre) out.Address out.Coins).err =
        some e →
      (inputOutputCoins ctx inputs (pre ++ out :: post)).err = some e ∧
      (inputOutputCoins ctx inputs (pre ++ out :: post)).tags = [] ∧
      (inputOutputCoins ctx inputs (pre ++ out :: post)).ctx =
        (addCoins (applyAdds (applySubtracts ctx inputs) pre) out.Address out.Coins).ctx ∧
      (inputOutputCoins ctx inputs (pre ++ out :: post)).ctx.accounts =
        (applyAdds (applySubtracts ctx inputs) pre).accounts) ∧
    (∀ (inputs : List Input) (outputs : List Output),
      (inputOutputCoins ctx inputs outputs).err = some e →
      (∃ pre inp post, inputs = pre ++ inp :: post ∧ subtractsOk ctx pre ∧
        (subtractCoins (applySubtracts ctx pre) inp.Address inp.Coins).err = some e) ∨
      (subtractsOk ctx inputs ∧
        ∃ pre out post, outputs = pre ++ out :: post ∧
          addsOk (applySubtracts ctx inputs) pre ∧
          (addCoins (applyAdds (applySubtracts ctx inputs) pre) out.Address out.Coins).err =
            some e)) := by
  refine ⟨?_, ?_, ?_⟩
  · intro pre inp post outputs hok he
    have hl := inputLoop_of_failure pre inp post ctx EmptyTags e hok he
    have hacc := subtractCoins_accounts_of_err _ _ _ e he
    unfold inputOutputCoins
    simp only [hl]
    exact ⟨trivial, trivial, trivial, hacc⟩
  · intro inputs pre out post hok hadd he
    have hin := inputLoop_of_ok inputs ctx EmptyTags hok
    have hl := outputLoop_of_failure pre out post (applySubtracts ctx inputs)
      (EmptyTags ++ subtractsTags ctx inputs) e hadd he
    have hacc := addCoins_accounts_of_err _ _ _ e he
    unfold inputOutputCoins
    simp only [hin, hl]
    exact ⟨trivial, trivial, trivial, hacc⟩
  · intro inputs outputs h
    unfold inputOutputCoins at h
    cases hi : (inputLoop ctx EmptyTags inputs).err with
    | some e1 =>
      simp only [hi] at h
      have he1 : e1 = e := by simpa using h
      rw [he1] at hi
      exact Or.inl (inputLoop_failure_split inputs ctx EmptyTags e hi)
    | none =>
      have hsub := subtractsOk_of_inputLoop inputs ctx EmptyTags hi
      have hin := inputLoop_of_ok inputs ctx EmptyTags hsub
      simp only [hi] at h
      rw [hin] at h
      exact Or.inr ⟨hsub, outputLoop_failure_split outputs _ _ e h⟩

/-- Instance of C14: with `A` holding `{atom:70}` and no account `C`, the batch
with inputs `[(A, {atom:50}), (C, {atom:30})]` fails at the second input; no
tags are returned and the debit of `A` stays. -/
theorem inputOutputCoins_first_failure_witness :
    subtractsOk ⟨0, storeA70⟩ [⟨"A", [⟨"atom", 50⟩]⟩] ∧
    (inputOutputCoins ⟨0, storeA70⟩ ([⟨"A", [⟨"atom", 50⟩]⟩] ++ ⟨"C", [⟨"atom", 30⟩]⟩ :: [])
      [⟨"B", [⟨"atom", 80⟩]⟩]).err =
        some (Error.ErrInsufficientCoins (ErrMsg.lessThan [] [⟨"atom", 30⟩])) ∧
    (inputOutputCoins ⟨0, storeA70⟩ ([⟨"A", [⟨"atom", 50⟩]⟩] ++ ⟨"C", [⟨"atom", 30⟩]⟩ :: [])
      [⟨"B", [⟨"atom", 80⟩]⟩]).tags = [] ∧
    (inputOutputCoins ⟨0, storeA70⟩ ([⟨"A", [⟨"atom", 50⟩]⟩] ++ ⟨"C", [⟨"atom", 30⟩]⟩ :: [])
      [⟨"B", [⟨"atom", 80⟩]⟩]).ctx.accounts =
        (applySubtracts ⟨0, storeA70⟩ [⟨"A", [⟨"atom", 50⟩]⟩]).accounts := by
  have hok : subtractsOk ⟨0, storeA70⟩ [⟨"A", [⟨"atom", 50⟩]⟩] := by
    simp +decide [subtractsOk, subtractCoins, getCoins, setCoins, GetAccount, SetAccount,
      Context.ConsumeGas, Account.GetCoins, Account.SetCoins, storeA70, Coins.Minus,
      Coins.Negative, Coins.Plus, Coins.plusStep, Coins.IsNotNegative]
  have he : (subtractCoins (applySubtracts ⟨0, storeA70⟩ [⟨"A", [⟨"atom", 50⟩]⟩])
      (Input.mk "C" [⟨"atom", 30⟩]).Address (Input.mk "C" [⟨"atom", 30⟩]).Coins).err =
      some (Error.ErrInsufficientCoins (ErrMsg.lessThan [] [⟨"atom", 30⟩])) := by
    simp +decide [applySubtracts, subtractCoins, getCoins, setCoins, GetAccount, SetAccount,
      NewAccountWithAddress, Context.ConsumeGas, Account.GetCoins, Account.SetCoins, storeA70,
      Coins.Minus, Coins.Negative, Coins.Plus, Coins.plusStep, Coins.IsNotNegative,
      Function.update]
  have h := (inputOutputCoins_first_failure ⟨0, storeA70⟩ _).1 [⟨"A", [⟨"atom", 50⟩]⟩]
    ⟨"C", [⟨"atom", 30⟩]⟩ [] [⟨"B", [⟨"atom", 80⟩]⟩] hok he
  exact ⟨hok, h.1, h.2.1, h.2.2.2⟩

/-! ## IssueAssetsToWallets step by step -/

/-- An issuance that returns an error has changed nothing and returns no tags. -/
theorem instantiate_of_err (ctx : Context) (issuerAddress toAddress : Address)
    (template : AssetPegWallet) (r : AssetResult) (e : Error)
    (h : instantiateAndAssignAsset ctx issuerAddress toAddress template = some r)
    (he : r.err = some e) : r.ctx = ctx ∧ r.tags = [] := by
  by_cases hw : walletOf ctx.accounts issuerAddress = []
  · rw [instantiate_of_empty ctx issuerAddress toAddress template hw] at h
    cases h
    exact ⟨rfl, rfl⟩
  · have hsplit := (List.dropLast_append_getLast hw).symm
    cases template with
    | nil =>
      rw [instantiate_of_nonempty_nil ctx issuerAddress toAddress _ _ hsplit] at h
      cases h
    | cons first rest =>
      rw [instantiate_of_nonempty ctx issuerAddress toAddress _ _ first rest hsplit] at h
      cases h
      cases he

theorem issueLoop_of_apply (reqs : List IssueAsset) (ctx : Context) (allTags : Tags)
    (c : Context) (t : Tags) (h : applyIssues ctx reqs = some (c, t)) :
    issueLoop ctx allTags reqs = some ⟨c, allTags ++ t, none⟩ := by
  induction reqs generalizing ctx allTags c t with
  | nil =>
    simp only [applyIssues, Option.some.injEq, Prod.mk.injEq] at h
    obtain ⟨rfl, rfl⟩ := h
    simp [issueLoop]
  | cons req rest ih =>
    rw [applyIssues] at h
    rw [issueLoop]
    cases h1 : instantiateAndAssignAsset ctx req.IssuerAddress req.ToAddress
        req.AssetPegWallet with
    | none => simp [h1] at h
    | some r =>
      simp only [h1] at h ⊢
      cases h2 : r.err with
      | some e => simp [h2] at h
      | none =>
        simp only [h2] at h ⊢
        cases h3 : applyIssues r.ctx rest with
        | none => simp [h3] at h
        | some p =>
          simp only [h3, Option.some.injEq, Prod.mk.injEq] at h
          obtain ⟨rfl, rfl⟩ := h
          rw [ih r.ctx (Tags.AppendTags allTags r.tags) p.1 p.2 h3]
          simp [Tags.AppendTags]

theorem issueLoop_of_failure (pre : List IssueAsset) (req : IssueAsset) (post : List IssueAsset)
    (ctx : Context) (allTags : Tags) (c : Context) (t : Tags) (r : AssetResult) (e : Error)
    (h : applyIssues ctx pre = some (c, t))
    (hr : instantiateAndAssignAsset c req.IssuerAddress req.ToAddress req.AssetPegWallet =
      some r)
    (he : r.err = some e) :
    issueLoop ctx allTags (pre ++ req :: post) = some ⟨c, [], some e⟩ := by
  induction pre generalizing ctx allTags c t with
  | nil =>
    simp only [applyIssues, Option.some.injEq, Prod.mk.injEq] at h
    obtain ⟨rfl, rfl⟩ := h
    have hc := (instantiate_of_err _ _ _ _ r e hr he).1
    simp [issueLoop, hr, he, hc]
  | cons p rest ih =>
    rw [applyIssues] at h
    rw [List.cons_append, issueLoop]
    cases h1 : instantiateAndAssignAsset ctx p.IssuerAddress p.ToAddress p.AssetPegWallet with
    | none => simp [h1] at h
    | some r1 =>
      simp only [h1] at h ⊢
      cases h2 : r1.err with
      | some e1 => simp [h2] at h
      | none =>
        simp only [h2] at h ⊢
        cases h3 : applyIssues r1.ctx rest with
        | none => simp [h3] at h
        | some q =>
          simp only [h3, Option.some.injEq, Prod.mk.injEq] at h
          obtain ⟨rfl, rfl⟩ := h
          exact ih r1.ctx (Tags.AppendTags allTags r1.tags) q.1 q.2 h3 hr

/-- A request that runs into an out-of-range index after the requests before it
succeeded makes the whole batch do so. -/
theorem issueLoop_of_panic (pre : List IssueAsset) (req : IssueAsset) (post : List IssueAsset)
    (ctx : Context) (allTags : Tags) (c : Context) (t : Tags)
    (h : applyIssues ctx pre = some (c, t))
    (hr : instantiateAndAssignAsset c req.IssuerAddress req.ToAddress req.AssetPegWallet =
      none) :
    issueLoop ctx allTags (pre ++ req :: post) = none := by
  induction pre generalizing ctx allTags c t with
  | nil =>
    simp only [applyIssues, Option.some.injEq, Prod.mk.injEq] at h
    obtain ⟨rfl, rfl⟩ := h
    simp [issueLoop, hr]
  | cons p rest ih =>
    rw [applyIssues] at h
    rw [List.cons_append, issueLoop]
    cases h1 : instantiateAndAssignAsset ctx p.IssuerAddress p.ToAddress p.AssetPegWallet with
    | none => simp [h1] at h
    | some r1 =>
      simp only [h1] at h ⊢
      cases h2 : r1.err with
      | some e1 => simp [h2] at h
      | none =>
        simp only [h2] at h ⊢
        cases h3 : applyIssues r1.ctx rest with
        | none => simp [h3] at h
        | some q =>
          simp only [h3, Option.some.injEq, Prod.mk.injEq] at h
          obtain ⟨rfl, rfl⟩ := h
          exact ih r1.ctx (Tags.AppendTags allTags r1.tags) q.1 q.2 h3 hr

/-- C15: `IssueAssetsToWallets` applies single issuance to the requests in list
order.  If every request succeeds it returns the final context and the tags of
the requests concatenated in order.  If a request returns an error after the
requests before it succeeded, it returns that error and no tags, and the
context is the one those earlier requests produced: no later request is
processed and no earlier issuance is undone. -/
theorem issueAssetsToWallets_batch (ctx : Context) :
    (∀ (reqs : List IssueAsset) (c : Context) (t : Tags),
      applyIssues ctx reqs = some (c, t) →
      issueAssetsToWallets ctx reqs = some ⟨c, t, none⟩) ∧
    (∀ (pre : List IssueAsset) (req : IssueAsset) (post : List IssueAsset) (c : Context)
      (t : Tags) (r : AssetResult) (e : Error),
      applyIssues ctx pre = some (c, t) →
      instantiateAndAssignAsset c req.IssuerAddress req.ToAddress req.AssetPegWallet = some r →
      r.err = some e →
      issueAssetsToWallets ctx (pre ++ req :: post) = some ⟨c, [], some e⟩) := by
  constructor
  · intro reqs c t h
    unfold issueAssetsToWallets
    rw [issueLoop_of_apply reqs ctx EmptyTags c t h]
    simp [EmptyTags]
  · intro pre req post c t r e h hr he
    unfold issueAssetsToWallets
    exact issueLoop_of_failure pre req post ctx EmptyTags c t r e h hr he

theorem storeIssuer_issue :
    instantiateAndAssignAsset ⟨0, storeIssuer⟩ "I" "R" [⟨"", "t"⟩] =
      some ⟨⟨0, storeIssued⟩, [⟨"h2", "t"⟩], [⟨"recepient", "R"⟩], none⟩ := by
  rw [instantiate_of_nonempty ⟨0, storeIssuer⟩ "I" "R" _ _ _ [] storeIssuer_wallet]
  simp +decide [storeIssued, balanceOf, walletOf, storeIssuer, Function.update]

/-- Instance of C15: the batch `[(I, R, [T]), (X, R, [T])]` on the store of
scenario 5.  The first request succeeds, the second fails because `X` has no
wallet; the batch returns that error and no tags, and the first issuance
stays. -/
theorem issueAssetsToWallets_batch_witness :
    applyIssues ⟨0, storeIssuer⟩ [⟨"I", "R", [⟨"", "t"⟩]⟩] =
      some (⟨0, storeIssued⟩, [⟨"recepient", "R"⟩]) ∧
    instantiateAndAssignAsset ⟨0, storeIssued⟩ "X" "R" [⟨"", "t"⟩] =
      some ⟨⟨0, storeIssued⟩, [], [],
        some (Error.ErrInsufficientCoins ErrMsg.noAssetsLeft)⟩ ∧
    issueAssetsToWallets ⟨0, storeIssuer⟩
        ([⟨"I", "R", [⟨"", "t"⟩]⟩] ++ ⟨"X", "R", [⟨"", "t"⟩]⟩ :: []) =
      some ⟨⟨0, storeIssued⟩, [],
        some (Error.ErrInsufficientCoins ErrMsg.noAssetsLeft)⟩ := by
  have hap : applyIssues ⟨0, storeIssuer⟩ [⟨"I", "R", [⟨"", "t"⟩]⟩] =
      some (⟨0, storeIssued⟩, [⟨"recepient", "R"⟩]) := by
    simp [applyIssues, storeIssuer_issue]
  have hr : instantiateAndAssignAsset ⟨0, storeIssued⟩ "X" "R" [⟨"", "t"⟩] =
      some ⟨⟨0, storeIssued⟩, [], [],
        some (Error.ErrInsufficientCoins ErrMsg.noAssetsLeft)⟩ := by
    apply instantiate_of_empty
    simp +decide [walletOf, storeIssued, storeIssuer, Function.update]
  exact ⟨hap, hr,
    (issueAssetsToWallets_batch ⟨0, storeIssuer⟩).2 [⟨"I", "R", [⟨"", "t"⟩]⟩]
      ⟨"X", "R", [⟨"", "t"⟩]⟩ [] _ _ _ _ hap hr rfl⟩

/-! ## The send-only keeper and the total supply -/

/-- C19 on the code: through the send-only keeper, `InputOutputCoins` with no
input and the output `(B, {atom:80})` succeeds on the empty store and leaves
`B` with `{atom:80}`, so the total of `atom` goes from 0 to 80; and `SendCoins`
of `{atom:-50}` from `A` (holding `{atom:70}`) to the absent `B` fails after it
raised `A` to `{atom:120}`. -/
theorem sendKeeper_creates_coins :
    (SendKeeper.InputOutputCoins (NewSendKeeper ⟨⟩) ⟨0, emptyStore⟩ []
      [⟨"B", [⟨"atom", 80⟩]⟩]).err = none ∧
    (∀ a, emptyStore a = none) ∧
    (∀ a, a ≠ "B" → (SendKeeper.InputOutputCoins (NewSendKeeper ⟨⟩) ⟨0, emptyStore⟩ []
      [⟨"B", [⟨"atom", 80⟩]⟩]).ctx.accounts a = none) ∧
    totalOver emptyStore ["B"] "atom" = 0 ∧
    totalOver (SendKeeper.InputOutputCoins (NewSendKeeper ⟨⟩) ⟨0, emptyStore⟩ []
      [⟨"B", [⟨"atom", 80⟩]⟩]).ctx.accounts ["B"] "atom" = 80 ∧
    (SendKeeper.SendCoins (NewSendKeeper ⟨⟩) ⟨0, storeA70⟩ "A" "B" [⟨"atom", -50⟩]).err ≠ none ∧
    (∀ a, a ≠ "A" → storeA70 a = none) ∧
    (∀ a, a ≠ "A" → (SendKeeper.SendCoins (NewSendKeeper ⟨⟩) ⟨0, storeA70⟩ "A" "B"
      [⟨"atom", -50⟩]).ctx.accounts a = none) ∧
    totalOver storeA70 ["A"] "atom" = 70 ∧
    totalOver (SendKeeper.SendCoins (NewSendKeeper ⟨⟩) ⟨0, storeA70⟩ "A" "B"
      [⟨"atom", -50⟩]).ctx.accounts ["A"] "atom" = 120 := by
  have hnn : Coins.IsNotNegative (Coins.Plus (balanceOf (Context.mk 0 emptyStore).accounts "B")
      [⟨"atom", 80⟩]) = true := by
    simp [balanceOf, emptyStore, Coins.Plus, Coins.IsNotNegative]
  obtain ⟨a1, a2, a3, _⟩ := addCoins_of_nonneg ⟨0, emptyStore⟩ "B" [⟨"atom", 80⟩] hnn
  have hio : SendKeeper.InputOutputCoins (NewSendKeeper ⟨⟩) ⟨0, emptyStore⟩ []
      [⟨"B", [⟨"atom", 80⟩]⟩] =
      ⟨(addCoins ⟨0, emptyStore⟩ "B" [⟨"atom", 80⟩]).ctx, [⟨"recipient", "B"⟩], none⟩ := by
    simp [SendKeeper.InputOutputCoins, inputOutputCoins, inputLoop, outputLoop, a1, a3,
      EmptyTags, Tags.AppendTags]
  have hmin : Coins.Minus (balanceOf (Context.mk 0 storeA70).accounts "A") [⟨"atom", -50⟩] =
      [⟨"atom", 120⟩] := by
    simp [balanceOf, storeA70, Coins.Minus, Coins.Negative, Coins.Plus, Coins.plusStep]
  have hs : Coins.IsNotNegative
      (Coins.Minus (balanceOf (Context.mk 0 storeA70).accounts "A") [⟨"atom", -50⟩]) = true := by
    rw [hmin]; simp [Coins.IsNotNegative]
  obtain ⟨s1, s2, _, _⟩ := subtractCoins_of_nonneg ⟨0, storeA70⟩ "A" [⟨"atom", -50⟩] hs
  have hbalB : balanceOf (subtractCoins ⟨0, storeA70⟩ "A" [⟨"atom", -50⟩]).ctx.accounts "B" =
      [] := by
    rw [s2, balanceOf_update_other _ _ _ _ (by decide)]
    simp +decide [balanceOf, storeA70]
  have hneg : Coins.IsNotNegative (Coins.Plus
      (balanceOf (subtractCoins ⟨0, storeA70⟩ "A" [⟨"atom", -50⟩]).ctx.accounts "B")
      [⟨"atom", -50⟩]) = false := by
    rw [hbalB]; simp [Coins.Plus, Coins.IsNotNegative]
  obtain ⟨b1, b2, _, _⟩ := addCoins_of_neg
    (subtractCoins ⟨0, storeA70⟩ "A" [⟨"atom", -50⟩]).ctx "B" [⟨"atom", -50⟩] hneg
  have hsend : (SendKeeper.SendCoins (NewSendKeeper ⟨⟩) ⟨0, storeA70⟩ "A" "B"
      [⟨"atom", -50⟩]).err ≠ none ∧
      (SendKeeper.SendCoins (NewSendKeeper ⟨⟩) ⟨0, storeA70⟩ "A" "B"
        [⟨"atom", -50⟩]).ctx.accounts =
        Function.update storeA70 "A" (some ⟨[⟨"atom", 120⟩], []⟩) := by
    simp only [SendKeeper.SendCoins, sendCoins, s1, b1]
    refine ⟨by simp, ?_⟩
    show (addCoins (subtractCoins ⟨0, storeA70⟩ "A" [⟨"atom", -50⟩]).ctx "B"
      [⟨"atom", -50⟩]).ctx.accounts = _
    rw [b2, s2, hmin]
    simp [walletOf, storeA70]
  refine ⟨by rw [hio], fun _ => rfl, ?_, ?_, ?_, hsend.1, ?_, ?_, ?_, ?_⟩
  · intro a ha
    rw [hio]
    show (addCoins ⟨0, emptyStore⟩ "B" [⟨"atom", 80⟩]).ctx.accounts a = none
    rw [a2, Function.update_noteq ha]
    rfl
  · simp [totalOver, balanceOf, emptyStore, Coins.AmountOf]
  · rw [hio]
    show totalOver (addCoins ⟨0, emptyStore⟩ "B" [⟨"atom", 80⟩]).ctx.accounts ["B"] "atom" = 80
    rw [a2]
    simp [totalOver, balanceOf, emptyStore, Coins.Plus, Coins.AmountOf]
  · intro a ha
    simp [storeA70, ha]
  · intro a ha
    rw [hsend.2, Function.update_noteq ha]
    simp [storeA70, ha]
  · simp [totalOver, balanceOf, storeA70, Coins.AmountOf]
  · rw [hsend.2]
    simp [totalOver, balanceOf, Coins.AmountOf]

end Bank
